import Mathlib

/-!
Verification of `src/sitkibex/xml_info.py`: the two conversion functions
between Imaris channel-information records and their XML encoding.

Embedding choices:
* Python floats are modelled as `ℚ`; the exact values Python floats take are
  dyadic rationals, and every such value has a finite decimal expansion
  (`DecimalRep` below), which is all the string round trips need.
* XML trees are modelled by `XNode` (tag, optional text, children), the shape
  `xml.etree.ElementTree` exposes to this code.  The string rendering
  `et.tostring` composed with `et.fromstring` is value-faithful on the trees
  the serializer builds and is modelled by `etRoundTrip`: the default parser
  drops comment nodes and parses the empty text back as `None`.
* Fallible Python code returns `Except`; the error constructors carry exactly
  the payload the corresponding Python exception message carries.
-/

deriving instance DecidableEq for Except

namespace SitkIbex

/-- Characters Python's `str.split()` with no argument treats as whitespace
(the ASCII ones; the repository's data holds no other unicode spaces). -/
def isPySpace (c : Char) : Bool :=
  c == ' ' || c == '\t' || c == '\n' || c == '\r' || c == '\x0b' || c == '\x0c'

/-- Models `text.replace(',', ' ')` on the character list of a string. -/
def replaceCommas (l : List Char) : List Char :=
  l.map fun c => if c = ',' then ' ' else c

/-- Accumulator loop of `splitWs`: `acc` holds the characters of the token
being read, in reverse. -/
def splitWsAux : List Char → List Char → List (List Char)
  | [], acc => if acc.isEmpty then [] else [acc.reverse]
  | c :: cs, acc =>
    if isPySpace c then
      if acc.isEmpty then splitWsAux cs [] else acc.reverse :: splitWsAux cs []
    else splitWsAux cs (c :: acc)

/-- Models `str.split()` with no argument: splits on runs of whitespace and
drops empty pieces. -/
def splitWs (l : List Char) : List (List Char) := splitWsAux l []

/-- Decimal digit character of `n % 10`. -/
def digitChar (n : ℕ) : Char := Char.ofNat (48 + n % 10)

/-- Fuel loop of `toDigits`; the fuel bounds the number of divisions by ten
and never runs out when it starts at `n + 1`. -/
def toDigitsAux : ℕ → ℕ → List Char → List Char
  | 0, _, acc => acc
  | fuel + 1, n, acc =>
    if n < 10 then digitChar n :: acc
    else toDigitsAux fuel (n / 10) (digitChar (n % 10) :: acc)

/-- Decimal digits of a natural number, most significant first: the digits
Python's `str` prints for a nonnegative integer. -/
def toDigits (n : ℕ) : List Char := toDigitsAux (n + 1) n []

/-- Value of a list of decimal digit characters, accumulated left to right. -/
def digitsVal (l : List Char) : ℕ :=
  l.foldl (fun a c => a * 10 + (c.toNat - 48)) 0

/-- Optional leading sign of a numeric literal, as a rational factor. -/
def parseSign (l : List Char) : ℚ × List Char :=
  match l with
  | [] => (1, [])
  | c :: t => if c = '+' then (1, t) else if c = '-' then (-1, t) else (1, c :: t)

/-- Optional leading sign of an exponent, as an integer factor. -/
def parseSignZ (l : List Char) : ℤ × List Char :=
  match l with
  | [] => (1, [])
  | c :: t => if c = '+' then (1, t) else if c = '-' then (-1, t) else (1, c :: t)

/-- Fractional part of a float literal: the digits after a leading dot, and
what remains. -/
def splitFrac (l : List Char) : List Char × List Char :=
  match l with
  | [] => ([], [])
  | c :: t =>
    if c = '.' then (t.takeWhile Char.isDigit, t.dropWhile Char.isDigit)
    else ([], c :: t)

/-- Exponent suffix of a float literal applied to a mantissa; the empty rest
means no exponent. -/
def parseExp (mant : ℚ) (rest : List Char) : Option ℚ :=
  match rest with
  | [] => some mant
  | e :: t =>
    if e = 'e' || e = 'E' then
      let st := parseSignZ t
      let ed := st.2.takeWhile Char.isDigit
      let er := st.2.dropWhile Char.isDigit
      if ed.isEmpty || !er.isEmpty then none
      else some (mant * (10 : ℚ) ^ (st.1 * (digitsVal ed : ℤ)))
    else none

/-- Models Python `float(str)` on an already stripped character list: optional
sign, decimal digits with an optional fraction dot, optional exponent.
(`inf`, `nan` and underscore separators are accepted by Python but never occur
in this repository's data and are not modelled.) -/
def pyFloatCore (l : List Char) : Option ℚ :=
  let sl := parseSign l
  let d1 := sl.2.takeWhile Char.isDigit
  let r1 := sl.2.dropWhile Char.isDigit
  let fr := splitFrac r1
  if d1.isEmpty && fr.1.isEmpty then none
  else
    parseExp (sl.1 * ((digitsVal d1 : ℚ) + (digitsVal fr.1 : ℚ) / 10 ^ fr.1.length)) fr.2

/-- Whitespace strip at both ends, as `float()` does before parsing. -/
def stripPy (l : List Char) : List Char :=
  ((l.dropWhile isPySpace).reverse.dropWhile isPySpace).reverse

/-- Models Python `float(s)` for a string argument. -/
def pyFloat (s : String) : Option ℚ := pyFloatCore (stripPy s.data)

/-- Models Python `int()` applied to a float value: truncation toward zero. -/
def pyTrunc (q : ℚ) : ℤ := if 0 ≤ q then ⌊q⌋ else ⌈q⌉

/-- Models Python `str` of an int: optional minus sign and decimal digits. -/
def pyStrInt (n : ℤ) : String :=
  String.mk ((if n < 0 then ['-'] else []) ++ toDigits n.natAbs)

/-- Exact finite decimal representability.  Every value a Python float can
take is a dyadic rational and satisfies this. -/
def DecimalRep (q : ℚ) : Prop := q.den ∣ 10 ^ q.den

instance (q : ℚ) : Decidable (DecimalRep q) := by unfold DecimalRep; infer_instance

/-- Models Python `str` of a float value: sign, integer digits, a dot, and at
least one fractional digit, the exact finite decimal expansion.  (For values
of extreme magnitude Python switches to exponent notation; both forms parse
back to the same value, and only the parsed value is observable here.)  The
empty-string fallback is unreachable for `DecimalRep` inputs. -/
def pyStrNum (q : ℚ) : String :=
  match (List.range (q.den + 1)).find? (fun k => 10 ^ k % q.den == 0) with
  | none => ""
  | some k =>
    let k' := max k 1
    let m : ℤ := q.num * ((10 ^ k / q.den : ℕ) : ℤ) * 10 ^ (k' - k)
    let ds0 := toDigits m.natAbs
    let ds := List.replicate (k' + 1 - ds0.length) '0' ++ ds0
    let i := ds.length - k'
    String.mk ((if m < 0 then ['-'] else []) ++ ds.take i ++ '.' :: ds.drop i)

/-- XML element trees as `xml.etree.ElementTree` presents them to this code:
a tag, optional text and child nodes, plus comment nodes as `et.Comment`
builds them.  Attributes and tail text never occur in this repository's data
and are not modelled. -/
inductive XNode where
  | elem (tag : String) (text : Option String) (children : List XNode)
  | comment (text : String)
deriving Repr

namespace XNode

/-- Child list of a node (a comment has none). -/
def childrenOf : XNode → List XNode
  | elem _ _ cs => cs
  | comment _ => []

/-- Text of a node; `none` models Python `None`. -/
def textOf : XNode → Option String
  | elem _ t _ => t
  | comment t => some t

/-- Tag test: an element with the given tag (a comment matches no tag). -/
def hasTag (tag : String) : XNode → Bool
  | elem t _ _ => t = tag
  | comment _ => false

/-- Python truthiness of an Element: `bool(elem)` is `len(children) != 0`. -/
def truthy : XNode → Bool
  | elem _ _ cs => !cs.isEmpty
  | comment _ => false

/-- Comment test. -/
def isComment : XNode → Bool
  | comment _ => true
  | elem _ _ _ => false

end XNode

/-- Models `Element.find(tag)`: the first child element with the tag, or
`None`. -/
def findChild (tag : String) (n : XNode) : Option XNode :=
  n.childrenOf.find? (XNode.hasTag tag)

/-- Faults the deserializer lets escape, carrying exactly what the Python
exception carries: `attributeError a` is `AttributeError: 'NoneType' object
has no attribute 'a'` (no field name, no channel index), `valueError t` is
`ValueError: could not convert string to float: t` (the token only), and
`typeError` is the payload-free `TypeError` of `float(None)`. -/
inductive DesErr where
  | attributeError (attr : String)
  | valueError (token : String)
  | typeError
deriving DecidableEq, Repr

/-- Faults the serializer lets escape: `NameError` when line 98 reads
`color_info` before any record defined it, `IndexError` when a range list is
shorter than two entries. -/
inductive SerErr where
  | nameError
  | indexError
deriving DecidableEq, Repr

/-- Channel record: the dictionary the source builds and consumes.  `name` and
`description` are `Option String` because Python stores an absent XML text as
`None`; `color`, `color_table` and `gamma` model optional dictionary keys.
`range` and `alpha` are present in every record this repository builds. -/
structure Record where
  name : Option String
  description : Option String
  color : Option (List ℚ) := none
  color_table : Option (List ℚ) := none
  range : List ℚ := []
  gamma : Option ℚ := none
  alpha : ℚ := 0
deriving DecidableEq, Repr

/-- Numeric-list token split of source lines 62, 64 and 65:
`text.replace(',', ' ').split()`. -/
def numTokens (s : String) : List (List Char) := splitWs (replaceCommas s.data)

/-- `float(s)` in `Except` form; a `ValueError` carries the raw token. -/
def floatExc (s : String) : Except DesErr ℚ :=
  match pyFloat s with
  | some v => Except.ok v
  | none => Except.error (DesErr.valueError s)

/-- Color list parse of lines 62 and 64:
`[float(c)/255 for c in elem.text.replace(',', ' ').split()]`; a `None` text
faults at `.replace`. -/
def colorFromElem (e : XNode) : Except DesErr (List ℚ) :=
  match e.textOf with
  | none => Except.error (DesErr.attributeError "replace")
  | some s => (numTokens s).mapM fun t => do
      let v ← floatExc (String.mk t)
      pure (v / 255)

/-- Range parse of line 65; a missing `range` child faults at `.text`, a
`None` text at `.replace`. -/
def rangeFromChannel (ch : XNode) : Except DesErr (List ℚ) :=
  match findChild "range" ch with
  | none => Except.error (DesErr.attributeError "text")
  | some e =>
    match e.textOf with
    | none => Except.error (DesErr.attributeError "replace")
    | some s => (numTokens s).mapM fun t => floatExc (String.mk t)

/-- Required text lookup of lines 59-60: `channel.find(tag).text`; a missing
child faults at `.text` with a plain AttributeError. -/
def textFromChannel (tag : String) (ch : XNode) : Except DesErr (Option String) :=
  match findChild tag ch with
  | none => Except.error (DesErr.attributeError "text")
  | some e => Except.ok e.textOf

/-- Color step of lines 61-64: `if find('color') is not None: ... elif
find('color_table') is not None: ...`; with neither child both keys stay
absent. -/
def colorStep (ch : XNode) : Except DesErr (Option (List ℚ) × Option (List ℚ)) :=
  match findChild "color" ch with
  | some e => (colorFromElem e).map fun v => (some v, none)
  | none =>
    match findChild "color_table" ch with
    | some e => (colorFromElem e).map fun v => (none, some v)
    | none => Except.ok (none, none)

/-- Gamma step of lines 66-67, with the source's truthiness test
`if channel_xml_info.find('gamma'):` kept exactly as written: the element is
consulted only when `bool(element)` is true, which for an Element means it
has child elements. -/
def gammaFromChannel (ch : XNode) : Except DesErr (Option ℚ) :=
  match findChild "gamma" ch with
  | some g =>
    if g.truthy then
      match g.textOf with
      | none => Except.error DesErr.typeError
      | some s => (floatExc s).map some
    else Except.ok none
  | none => Except.ok none

/-- Alpha step of line 68: `float(channel.find('alpha').text)`; a missing
child faults at `.text`, a `None` text at `float(None)`. -/
def alphaFromChannel (ch : XNode) : Except DesErr ℚ :=
  match findChild "alpha" ch with
  | none => Except.error (DesErr.attributeError "text")
  | some e =>
    match e.textOf with
    | none => Except.error DesErr.typeError
    | some s => floatExc s

/-- Per-channel body of `channels_information_xmlstr2list` (lines 58-69), in
source order: name, description, color step, range, gamma, alpha. -/
def parseChannel (ch : XNode) : Except DesErr Record := do
  let nameT ← textFromChannel "name" ch
  let descT ← textFromChannel "description" ch
  let colors ← colorStep ch
  let rangeV ← rangeFromChannel ch
  let gammaV ← gammaFromChannel ch
  let alphaV ← alphaFromChannel ch
  pure { name := nameT, description := descT, color := colors.1,
         color_table := colors.2, range := rangeV, gamma := gammaV, alpha := alphaV }

/-- Deserializer `channels_information_xmlstr2list` on the parsed tree:
iterate the root's children in document order and build one record each. -/
def channels_information_xml2list (root : XNode) : Except DesErr (List Record) :=
  root.childrenOf.mapM parseChannel

/-- Models `sep.join(parts)` on character lists. -/
def joinSep (sep : List Char) : List (List Char) → List Char
  | [] => []
  | [t] => t
  | t :: ts => t ++ sep ++ joinSep sep ts

/-- Color text of line 98:
`', '.join([str(int(c*255 + 0.5)) for c in color_info])`. -/
def colorJoin (cs : List ℚ) : String :=
  String.mk (joinSep [',', ' ']
    (cs.map fun c => (pyStrInt (pyTrunc (c * 255 + 1/2))).data))

/-- Trailing elements of a channel (lines 99-106): range text
`'{0}, {1}'.format(range[0], range[1])`, alpha, and gamma only when present;
indexing a short range list raises IndexError. -/
def tailElems (r : Record) : Except SerErr (List XNode) :=
  match r.range with
  | r0 :: r1 :: _ =>
    Except.ok ([XNode.elem "range" (some (pyStrNum r0 ++ ", " ++ pyStrNum r1)) [],
      XNode.elem "alpha" (some (pyStrNum r.alpha)) []] ++
      (match r.gamma with
       | some g => [XNode.elem "gamma" (some (pyStrNum g)) []]
       | none => []))
  | _ => Except.error SerErr.indexError

/-- Channel emission of lines 86-106, threading the Python local `color_info`.
The `current_field` aliasing of line 98 is kept: when a record has neither
`color` nor `color_table`, the joined text of the previous channel's
`color_info` is assigned to the still-current description element, and when no
previous channel set `color_info` the lookup raises NameError. -/
def channelToXml (colorInfo : Option (List ℚ)) (r : Record) :
    Except SerErr (XNode × Option (List ℚ)) :=
  match r.color with
  | some cs => do
    let tail ← tailElems r
    pure (XNode.elem "channel" none
      (XNode.elem "name" r.name [] :: XNode.elem "description" r.description [] ::
       XNode.elem "color" (some (colorJoin cs)) [] :: tail), some cs)
  | none =>
    match r.color_table with
    | some cs => do
      let tail ← tailElems r
      pure (XNode.elem "channel" none
        (XNode.elem "name" r.name [] :: XNode.elem "description" r.description [] ::
         XNode.elem "color_table" (some (colorJoin cs)) [] :: tail), some cs)
    | none =>
      match colorInfo with
      | none => Except.error SerErr.nameError
      | some stale => do
        let tail ← tailElems r
        pure (XNode.elem "channel" none
          (XNode.elem "name" r.name [] ::
           XNode.elem "description" (some (colorJoin stale)) [] :: tail), some stale)

/-- Loop of lines 85-106 over the record list, in order. -/
def channelsToXml (colorInfo : Option (List ℚ)) :
    List Record → Except SerErr (List XNode)
  | [] => Except.ok []
  | r :: rs => do
    let p ← channelToXml colorInfo r
    let xs ← channelsToXml p.2 rs
    pure (p.1 :: xs)

/-- Serializer `channels_information_list2xmlstr` at tree level: the root
element with the fixed comment first and one channel element per record in
input order (lines 82-109). -/
def channels_information_list2xml (rs : List Record) : Except SerErr XNode :=
  (channelsToXml none rs).map fun cs =>
    XNode.elem "imaris_channels_information" none
      (XNode.comment "generated by SimpleITK" :: cs)

/-- Text normalization performed by `et.tostring` followed by `et.fromstring`:
an empty text serializes as `<tag></tag>` and parses back as `None`. -/
def normText : Option String → Option String
  | none => none
  | some s => if s = "" then none else some s

mutual

/-- Models `et.fromstring(et.tostring(tree))` on the trees this repository
builds: the default parser discards comment nodes and an empty text comes back
as `None`; tags and non-empty texts survive unchanged (escaping of `&<>` is
inverted exactly by the parser). -/
def etRoundTrip : XNode → XNode
  | XNode.elem t tx cs => XNode.elem t (normText tx) (etRoundTripList cs)
  | XNode.comment s => XNode.comment s

/-- Child list normalization of `etRoundTrip`: comments dropped, elements kept
in order. -/
def etRoundTripList : List XNode → List XNode
  | [] => []
  | XNode.comment _ :: rest => etRoundTripList rest
  | x :: rest => etRoundTrip x :: etRoundTripList rest

end

/-- Copy of a node with every `color_table` child removed, used to state that
the deserializer ignores `color_table` children when a `color` child exists. -/
def eraseColorTable (n : XNode) : XNode :=
  match n with
  | XNode.elem t tx cs => XNode.elem t tx (cs.filter fun c => !(XNode.hasTag "color_table" c))
  | XNode.comment s => XNode.comment s

/-- Well-formed record in the sense of the round-trip claim: `name`,
`description`, `range` and `alpha` present (with `range` the two floats of the
data model and every numeric value one a Python float can hold, hence with a
finite decimal expansion), exactly one of `color`/`color_table` present with a
non-empty list of components in `[0, 1]`, the texts non-empty, and no `gamma`
key (the amendment the gamma defect forces). -/
structure WF (r : Record) : Prop where
  name_some : ∃ s, r.name = some s ∧ s ≠ ""
  desc_some : ∃ s, r.description = some s ∧ s ≠ ""
  range_two : r.range.length = 2
  range_dec : ∀ x ∈ r.range, DecimalRep x
  alpha_dec : DecimalRep r.alpha
  gamma_none : r.gamma = none
  color_excl :
    (r.color_table = none ∧ ∃ cs, r.color = some cs ∧ cs ≠ [] ∧
      ∀ c ∈ cs, 0 ≤ c ∧ c ≤ 1) ∨
    (r.color = none ∧ ∃ cs, r.color_table = some cs ∧ cs ≠ [] ∧
      ∀ c ∈ cs, 0 ≤ c ∧ c ≤ 1)

/-- Componentwise closeness of an optional color list: both absent, or both
present with the same length and every component within `1/255`. -/
def CloseColor : Option (List ℚ) → Option (List ℚ) → Prop
  | none, none => True
  | some cs', some cs => cs'.length = cs.length ∧
      ∀ i (h1 : i < cs'.length) (h2 : i < cs.length),
        |cs'.get ⟨i, h1⟩ - cs.get ⟨i, h2⟩| ≤ 1 / 255
  | _, _ => False

/-- Round-trip closeness of records: every field except the colors equal, the
colors within `1/255` componentwise. -/
def CloseRec (r' r : Record) : Prop :=
  r'.name = r.name ∧ r'.description = r.description ∧ r'.range = r.range ∧
  r'.alpha = r.alpha ∧ r'.gamma = r.gamma ∧
  CloseColor r'.color r.color ∧ CloseColor r'.color_table r.color_table

/-! Generic reduction lemmas for `Except` and `List.mapM`. -/

theorem except_bind_ok {ε α β : Type} (a : α) (f : α → Except ε β) :
    (Except.ok a >>= f) = f a := rfl

theorem except_bind_error {ε α β : Type} (e : ε) (f : α → Except ε β) :
    ((Except.error e : Except ε α) >>= f) = Except.error e := rfl

theorem except_map_ok {ε α β : Type} (g : α → β) (a : α) :
    (Except.ok a : Except ε α).map g = Except.ok (g a) := rfl

theorem except_pure {ε α : Type} (a : α) : (pure a : Except ε α) = Except.ok a := rfl

theorem mapM_ok_of_forall {ε α β : Type} (f : α → Except ε β) (g : α → β) :
    ∀ l : List α, (∀ a ∈ l, f a = Except.ok (g a)) →
      l.mapM f = Except.ok (l.map g) := by
  intro l
  induction l with
  | nil => intro _; rfl
  | cons a l ih =>
    intro h
    rw [List.mapM_cons, h a (List.mem_cons_self a l),
      ih (fun b hb => h b (List.mem_cons_of_mem a hb))]
    rfl

theorem mapM_ok_pointwise {ε α β : Type} {f : α → Except ε β} :
    ∀ {l : List α} {ys : List β}, l.mapM f = Except.ok ys →
      ys.length = l.length ∧
      ∀ i (h1 : i < l.length) (h2 : i < ys.length),
        f (l.get ⟨i, h1⟩) = Except.ok (ys.get ⟨i, h2⟩) := by
  intro l
  induction l with
  | nil =>
    intro ys h
    cases h
    exact ⟨rfl, fun i h1 _ => absurd h1 (Nat.not_lt_zero i)⟩
  | cons a l ih =>
    intro ys h
    rw [List.mapM_cons] at h
    cases hfa : f a with
    | error e => rw [hfa, except_bind_error] at h; cases h
    | ok b =>
      rw [hfa, except_bind_ok] at h
      cases hml : l.mapM f with
      | error e => rw [hml, except_bind_error] at h; cases h
      | ok bs =>
        rw [hml, except_bind_ok, except_pure] at h
        cases h
        obtain ⟨hlen, hpt⟩ := ih hml
        refine ⟨by simp [hlen], ?_⟩
        intro i h1 h2
        match i with
        | 0 => exact hfa
        | j + 1 =>
          exact hpt j (Nat.lt_of_succ_lt_succ h1) (Nat.lt_of_succ_lt_succ h2)

/-! Character classes and digit lists. -/

theorem isPySpace_false_of_isDigit {c : Char} (h : c.isDigit = true) :
    isPySpace c = false := by
  cases hsp : isPySpace c with
  | false => rfl
  | true =>
    simp only [isPySpace, Bool.or_eq_true, beq_iff_eq] at hsp
    rcases hsp with ((((rfl | rfl) | rfl) | rfl) | rfl) | rfl <;>
      exact absurd h (by decide)

theorem ne_comma_of_isDigit {c : Char} (h : c.isDigit = true) : c ≠ ',' := by
  rintro rfl; exact absurd h (by decide)

theorem digitChar_isDigit (n : ℕ) : (digitChar n).isDigit = true := by
  have key : ∀ m : Fin 10, (Char.ofNat (48 + m.val)).isDigit = true := by decide
  have h : n % 10 < 10 := Nat.mod_lt _ (by omega)
  exact key ⟨n % 10, h⟩

theorem digitChar_val (n : ℕ) : (digitChar n).toNat - 48 = n % 10 := by
  have key : ∀ m : Fin 10, (Char.ofNat (48 + m.val)).toNat - 48 = m.val := by decide
  have h : n % 10 < 10 := Nat.mod_lt _ (by omega)
  exact key ⟨n % 10, h⟩

theorem foldl_digits (l : List Char) :
    ∀ init : ℕ, l.foldl (fun a c => a * 10 + (c.toNat - 48)) init =
      init * 10 ^ l.length + digitsVal l := by
  induction l with
  | nil => intro init; simp [digitsVal]
  | cons c l ih =>
    intro init
    have hc : digitsVal (c :: l) = (c.toNat - 48) * 10 ^ l.length + digitsVal l := by
      show List.foldl _ (0 * 10 + (c.toNat - 48)) l = _
      rw [ih]; ring_nf
    show List.foldl _ (init * 10 + (c.toNat - 48)) l = _
    rw [ih, hc, List.length_cons, pow_succ]; ring

theorem digitsVal_append (a b : List Char) :
    digitsVal (a ++ b) = digitsVal a * 10 ^ b.length + digitsVal b := by
  show List.foldl _ 0 (a ++ b) = _
  rw [List.foldl_append]
  exact foldl_digits b (digitsVal a)

theorem digitsVal_replicate_zero (z : ℕ) :
    digitsVal (List.replicate z '0') = 0 := by
  induction z with
  | zero => rfl
  | succ z ih =>
    rw [List.replicate_succ]
    show List.foldl _ (0 * 10 + ('0'.toNat - 48)) _ = 0
    simpa [digitsVal] using ih

theorem toDigitsAux_spec :
    ∀ fuel n acc, n < fuel →
      ∃ ds, toDigitsAux fuel n acc = ds ++ acc ∧ ds ≠ [] ∧
        (∀ c ∈ ds, c.isDigit = true) ∧ digitsVal ds = n := by
  intro fuel
  induction fuel with
  | zero => intro n acc h; omega
  | succ fuel ih =>
    intro n acc h
    by_cases h10 : n < 10
    · refine ⟨[digitChar n], by simp [toDigitsAux, h10], by simp, ?_, ?_⟩
      · intro c hc
        rcases List.mem_singleton.mp hc with rfl
        exact digitChar_isDigit n
      · show 0 * 10 + ((digitChar n).toNat - 48) = n
        rw [digitChar_val]
        omega
    · obtain ⟨ds, hds, hne, hdig, hval⟩ :=
        ih (n / 10) (digitChar (n % 10) :: acc) (by omega)
      refine ⟨ds ++ [digitChar (n % 10)], ?_, by simp, ?_, ?_⟩
      · rw [toDigitsAux, if_neg h10, hds]
        simp
      · intro c hc
        rcases List.mem_append.mp hc with hc | hc
        · exact hdig c hc
        · rcases List.mem_singleton.mp hc with rfl
          exact digitChar_isDigit _
      · rw [digitsVal_append, hval]
        have : digitsVal [digitChar (n % 10)] = n % 10 := by
          show 0 * 10 + ((digitChar (n % 10)).toNat - 48) = n % 10
          rw [digitChar_val]
          omega
        rw [this]
        simp only [List.length_singleton, pow_one]
        omega

theorem toDigits_spec (n : ℕ) :
    toDigits n ≠ [] ∧ (∀ c ∈ toDigits n, c.isDigit = true) ∧
      digitsVal (toDigits n) = n := by
  obtain ⟨ds, hds, hne, hdig, hval⟩ := toDigitsAux_spec (n + 1) n [] (by omega)
  have : toDigits n = ds := by rw [toDigits, hds, List.append_nil]
  rw [this]
  exact ⟨hne, hdig, hval⟩

/-! Splitting, joining and comma replacement. -/

theorem takeWhile_append_of_all {p : Char → Bool} :
    ∀ l1 l2 : List Char, (∀ c ∈ l1, p c = true) →
      (l1 ++ l2).takeWhile p = l1 ++ l2.takeWhile p := by
  intro l1
  induction l1 with
  | nil => intro l2 _; rfl
  | cons c l ih =>
    intro l2 h
    rw [List.cons_append, List.takeWhile_cons_of_pos (h c (List.mem_cons_self c l)),
      ih l2 (fun d hd => h d (List.mem_cons_of_mem c hd)), List.cons_append]

theorem dropWhile_append_of_all {p : Char → Bool} :
    ∀ l1 l2 : List Char, (∀ c ∈ l1, p c = true) →
      (l1 ++ l2).dropWhile p = l2.dropWhile p := by
  intro l1
  induction l1 with
  | nil => intro l2 _; rfl
  | cons c l ih =>
    intro l2 h
    rw [List.cons_append, List.dropWhile_cons_of_pos (h c (List.mem_cons_self c l)),
      ih l2 (fun d hd => h d (List.mem_cons_of_mem c hd))]

theorem takeWhile_eq_self_of_all {p : Char → Bool} {l : List Char}
    (h : ∀ c ∈ l, p c = true) : l.takeWhile p = l := by
  have := takeWhile_append_of_all l [] h
  simpa using this

theorem dropWhile_eq_nil_of_all {p : Char → Bool} {l : List Char}
    (h : ∀ c ∈ l, p c = true) : l.dropWhile p = [] := by
  have := dropWhile_append_of_all l [] h
  simpa using this

theorem dropWhile_eq_self_of_all {p : Char → Bool} {l : List Char}
    (h : ∀ c ∈ l, p c = false) : l.dropWhile p = l := by
  cases l with
  | nil => rfl
  | cons c t =>
    exact List.dropWhile_cons_of_neg (by simp [h c (List.mem_cons_self c t)])

theorem stripPy_eq_self {l : List Char} (h : ∀ c ∈ l, isPySpace c = false) :
    stripPy l = l := by
  unfold stripPy
  rw [dropWhile_eq_self_of_all h,
    dropWhile_eq_self_of_all (fun c hc => h c (List.mem_reverse.mp hc)),
    List.reverse_reverse]

theorem splitWsAux_token :
    ∀ t : List Char, (∀ c ∈ t, isPySpace c = false) →
      ∀ (l : List Char) (acc : List Char),
        splitWsAux (t ++ l) acc = splitWsAux l (t.reverse ++ acc) := by
  intro t
  induction t with
  | nil => intro _ l acc; simp
  | cons c t ih =>
    intro h l acc
    rw [List.cons_append, splitWsAux, if_neg (by simp [h c (List.mem_cons_self c t)]),
      ih (fun d hd => h d (List.mem_cons_of_mem c hd)) l (c :: acc)]
    simp

theorem splitWsAux_ws_skip :
    ∀ s : List Char, (∀ c ∈ s, isPySpace c = true) →
      ∀ l : List Char, splitWsAux (s ++ l) [] = splitWsAux l [] := by
  intro s
  induction s with
  | nil => intro _ l; rfl
  | cons c s ih =>
    intro h l
    rw [List.cons_append, splitWsAux, if_pos (h c (List.mem_cons_self c s))]
    simp only [List.isEmpty_nil, if_true]
    exact ih (fun d hd => h d (List.mem_cons_of_mem c hd)) l

theorem splitWsAux_ws_flush {c : Char} (hc : isPySpace c = true)
    (l : List Char) (a : Char) (acc : List Char) :
    splitWsAux (c :: l) (a :: acc) = (a :: acc).reverse :: splitWsAux l [] := by
  rw [splitWsAux, if_pos hc]
  simp

theorem splitWsAux_nil_of_ne {acc : List Char} (h : acc ≠ []) :
    splitWsAux [] acc = [acc.reverse] := by
  rw [splitWsAux, if_neg (by simpa [List.isEmpty_iff] using h)]

theorem splitWs_joinSep {sep : List Char} (hsepne : sep ≠ [])
    (hsep : ∀ c ∈ sep, isPySpace c = true) :
    ∀ ts : List (List Char), (∀ t ∈ ts, t ≠ []) →
      (∀ t ∈ ts, ∀ c ∈ t, isPySpace c = false) →
      splitWs (joinSep sep ts) = ts := by
  obtain ⟨w, sep', rfl⟩ : ∃ w sep', sep = w :: sep' := by
    cases sep with
    | nil => exact absurd rfl hsepne
    | cons w s => exact ⟨w, s, rfl⟩
  intro ts
  induction ts with
  | nil => intro _ _; rfl
  | cons t ts ih =>
    intro hne hch
    have htne : t ≠ [] := hne t (List.mem_cons_self t ts)
    have htch : ∀ c ∈ t, isPySpace c = false := hch t (List.mem_cons_self t ts)
    have hrevne : t.reverse ≠ [] := fun hh =>
      htne (by simpa using congrArg List.reverse hh)
    cases ts with
    | nil =>
      show splitWsAux (joinSep (w :: sep') [t]) [] = [t]
      rw [show joinSep (w :: sep') [t] = t ++ [] by simp [joinSep],
        splitWsAux_token t htch [] [], List.append_nil,
        splitWsAux_nil_of_ne hrevne, List.reverse_reverse]
    | cons u ts' =>
      show splitWsAux (joinSep (w :: sep') (t :: u :: ts')) [] = _
      rw [show joinSep (w :: sep') (t :: u :: ts') =
            t ++ ((w :: sep') ++ joinSep (w :: sep') (u :: ts')) by simp [joinSep],
        splitWsAux_token t htch _ [], List.append_nil, List.cons_append]
      cases ht : t.reverse with
      | nil => exact absurd ht hrevne
      | cons a racc =>
        rw [splitWsAux_ws_flush (hsep w (List.mem_cons_self w sep')) _ a racc,
          ← ht, List.reverse_reverse,
          splitWsAux_ws_skip sep'
            (fun d hd => hsep d (List.mem_cons_of_mem w hd)) _]
        rw [show splitWsAux (joinSep (w :: sep') (u :: ts')) [] =
              splitWs (joinSep (w :: sep') (u :: ts')) from rfl,
          ih (fun v hv => hne v (List.mem_cons_of_mem t hv))
            (fun v hv => hch v (List.mem_cons_of_mem t hv))]

theorem replaceCommas_append (a b : List Char) :
    replaceCommas (a ++ b) = replaceCommas a ++ replaceCommas b :=
  List.map_append _ a b

theorem replaceCommas_eq_self {l : List Char} (h : ∀ c ∈ l, c ≠ ',') :
    replaceCommas l = l := by
  induction l with
  | nil => rfl
  | cons c t ih =>
    show (if c = ',' then ' ' else c) :: replaceCommas t = c :: t
    rw [if_neg (h c (List.mem_cons_self c t)),
      ih (fun d hd => h d (List.mem_cons_of_mem c hd))]

theorem replaceCommas_joinSep (sep : List Char) :
    ∀ ts : List (List Char),
      replaceCommas (joinSep sep ts) =
        joinSep (replaceCommas sep) (ts.map replaceCommas) := by
  intro ts
  induction ts with
  | nil => rfl
  | cons t ts ih =>
    cases ts with
    | nil => simp [joinSep]
    | cons u ts' =>
      have h1 : joinSep sep (t :: u :: ts') = t ++ sep ++ joinSep sep (u :: ts') := by
        simp [joinSep]
      have h2 : joinSep (replaceCommas sep) (replaceCommas t :: replaceCommas u :: ts'.map replaceCommas) =
          replaceCommas t ++ replaceCommas sep ++ joinSep (replaceCommas sep) (replaceCommas u :: ts'.map replaceCommas) := by
        simp [joinSep]
      rw [h1, List.map_cons, List.map_cons, h2, replaceCommas_append, replaceCommas_append, ← List.map_cons replaceCommas u ts', ih]

/-- Main separator-tolerance engine: joining well-formed numeric tokens with a
separator whose comma replacement is all whitespace, then tokenizing as the
deserializer does, recovers exactly the tokens. -/
theorem numTokens_joinSep {sep : List Char} (hsepne : sep ≠ [])
    (hsep : ∀ c ∈ sep, isPySpace (if c = ',' then ' ' else c) = true)
    (ts : List (List Char)) (h1 : ∀ t ∈ ts, t ≠ [])
    (h2 : ∀ t ∈ ts, ∀ c ∈ t, isPySpace c = false ∧ c ≠ ',') :
    numTokens (String.mk (joinSep sep ts)) = ts := by
  show splitWs (replaceCommas (joinSep sep ts)) = ts
  rw [replaceCommas_joinSep]
  have hmap : ts.map replaceCommas = ts := by
    apply List.map_congr_left ?_ |>.trans (List.map_id ts)
    intro t ht
    exact replaceCommas_eq_self (fun c hc => (h2 t ht c hc).2)
  rw [hmap]
  apply splitWs_joinSep
  · intro hcontra
    exact hsepne (by simpa [replaceCommas] using congrArg List.length hcontra)
  · intro c hc
    obtain ⟨d, hd, rfl⟩ := List.mem_map.mp hc
    exact hsep d hd
  · exact h1
  · intro t ht c hc
    exact (h2 t ht c hc).1

/-! Parsing and printing of numbers. -/

theorem ne_sign_chars_of_isDigit {c : Char} (h : c.isDigit = true) :
    c ≠ '+' ∧ c ≠ '-' ∧ c ≠ '.' := by
  refine ⟨?_, ?_, ?_⟩ <;> (rintro rfl; exact absurd h (by decide))

theorem parseSign_of_head_digit {c : Char} (h : c.isDigit = true) (t : List Char) :
    parseSign (c :: t) = (1, c :: t) := by
  obtain ⟨h1, h2, _⟩ := ne_sign_chars_of_isDigit h
  simp only [parseSign]
  rw [if_neg h1, if_neg h2]

theorem pyFloatCore_digits {ds : List Char} (hne : ds ≠ [])
    (hdig : ∀ c ∈ ds, c.isDigit = true) :
    pyFloatCore ds = some (digitsVal ds : ℚ) := by
  obtain ⟨c, t, rfl⟩ : ∃ c t, ds = c :: t := by
    cases ds with
    | nil => exact absurd rfl hne
    | cons c t => exact ⟨c, t, rfl⟩
  have hc := hdig c (List.mem_cons_self c t)
  simp only [pyFloatCore, parseSign_of_head_digit hc]
  rw [takeWhile_eq_self_of_all hdig, dropWhile_eq_nil_of_all hdig]
  simp only [splitFrac]
  rw [if_neg (by simp [List.isEmpty_iff])]
  simp only [parseExp, digitsVal, List.foldl_nil, List.length_nil]
  norm_num

theorem pyFloat_pyStrInt {m : ℤ} (hm : 0 ≤ m) :
    pyFloat (pyStrInt m) = some (m : ℚ) := by
  obtain ⟨hne, hdig, hval⟩ := toDigits_spec m.natAbs
  have hform : (pyStrInt m).data = toDigits m.natAbs := by
    simp [pyStrInt, not_lt.mpr hm]
  rw [pyFloat, hform,
    stripPy_eq_self (fun c hc => isPySpace_false_of_isDigit (hdig c hc)),
    pyFloatCore_digits hne hdig, hval]
  congr 1
  rw [Int.cast_natAbs, abs_of_nonneg hm]

theorem pyFloatCore_signed_decimal (neg : Bool) (intd frcd : List Char)
    (hi : intd ≠ []) (hdi : ∀ c ∈ intd, c.isDigit = true)
    (hdf : ∀ c ∈ frcd, c.isDigit = true) :
    pyFloatCore ((if neg then ['-'] else []) ++ intd ++ '.' :: frcd) =
      some ((if neg then (-1 : ℚ) else 1) *
        ((digitsVal intd : ℚ) + (digitsVal frcd : ℚ) / 10 ^ frcd.length)) := by
  obtain ⟨c, t, rfl⟩ : ∃ c t, intd = c :: t := by
    cases intd with
    | nil => exact absurd rfl hi
    | cons c t => exact ⟨c, t, rfl⟩
  have hc := hdi c (List.mem_cons_self c t)
  have hsign : parseSign ((if neg then ['-'] else []) ++ (c :: t) ++ '.' :: frcd) =
      ((if neg then (-1 : ℚ) else 1), (c :: t) ++ '.' :: frcd) := by
    cases neg with
    | true => simp [parseSign]
    | false =>
      simp only [if_neg (Bool.false_ne_true), List.nil_append]
      rw [List.cons_append, parseSign_of_head_digit hc]
  simp only [hsign, pyFloatCore]
  rw [takeWhile_append_of_all _ _ hdi, dropWhile_append_of_all _ _ hdi,
    List.takeWhile_cons_of_neg (by simp), List.dropWhile_cons_of_neg (by simp),
    List.append_nil]
  simp only [splitFrac, if_pos rfl]
  rw [takeWhile_eq_self_of_all hdf, dropWhile_eq_nil_of_all hdf,
    if_neg (by simp [List.isEmpty_iff])]
  simp [parseExp]

theorem find_decimal_exponent {q : ℚ} (h : DecimalRep q) :
    ∃ k, (List.range (q.den + 1)).find? (fun k => 10 ^ k % q.den == 0) = some k ∧
      q.den ∣ 10 ^ k := by
  cases hf : (List.range (q.den + 1)).find? (fun k => 10 ^ k % q.den == 0) with
  | none =>
    exfalso
    have hmem : q.den ∈ List.range (q.den + 1) := List.mem_range.mpr (by omega)
    have hnone := List.find?_eq_none.mp hf q.den hmem
    have hz : 10 ^ q.den % q.den = 0 := Nat.mod_eq_zero_of_dvd h
    exact hnone (by simp [hz])
  | some k =>
    refine ⟨k, rfl, ?_⟩
    have := List.find?_some hf
    exact Nat.dvd_of_mod_eq_zero (by simpa using this)

/-- Structure, parse value and character classes of `pyStrNum` output for a
decimal-representable rational: Python's float printing and float parsing are
mutually inverse on the values the serializer prints. -/
theorem pyStrNum_spec (q : ℚ) (h : DecimalRep q) :
    pyFloat (pyStrNum q) = some q ∧ (pyStrNum q).data ≠ [] ∧
      ∀ c ∈ (pyStrNum q).data, isPySpace c = false ∧ c ≠ ',' := by
  obtain ⟨k, hf, hdvd⟩ := find_decimal_exponent h
  have hden : (0 : ℕ) < q.den := q.den_pos
  -- Abbreviations mirroring the let-bindings of pyStrNum.
  set k' : ℕ := max k 1 with hk'
  set m : ℤ := q.num * ((10 ^ k / q.den : ℕ) : ℤ) * 10 ^ (k' - k) with hm
  set ds0 : List Char := toDigits m.natAbs with hds0
  set ds : List Char := List.replicate (k' + 1 - ds0.length) '0' ++ ds0 with hds
  set i : ℕ := ds.length - k' with hi
  have hout : (pyStrNum q).data =
      (if m < 0 then ['-'] else []) ++ ds.take i ++ '.' :: ds.drop i := by
    rw [pyStrNum, hf]
  obtain ⟨h0ne, h0dig, h0val⟩ := toDigits_spec m.natAbs
  have hdsdig : ∀ c ∈ ds, c.isDigit = true := by
    intro c hc
    rcases List.mem_append.mp hc with hc | hc
    · rcases List.eq_of_mem_replicate hc with rfl; decide
    · exact h0dig c hc
  have hdslen : k' + 1 ≤ ds.length := by
    rw [hds, List.length_append, List.length_replicate]
    omega
  have hilen : 1 ≤ i := by omega
  have hdrop : (ds.drop i).length = k' := by
    rw [List.length_drop]
    omega
  have htake_ne : ds.take i ≠ [] := by
    have : (ds.take i).length = i := by
      rw [List.length_take]
      omega
    intro hcon
    rw [hcon] at this
    simp at this
    omega
  have htake_dig : ∀ c ∈ ds.take i, c.isDigit = true :=
    fun c hc => hdsdig c (List.take_subset i ds hc)
  have hdrop_dig : ∀ c ∈ ds.drop i, c.isDigit = true :=
    fun c hc => hdsdig c (List.drop_subset i ds hc)
  have hdsval : digitsVal ds = m.natAbs := by
    rw [hds, digitsVal_append, digitsVal_replicate_zero, h0val]
    omega
  have hsplitval : digitsVal (ds.take i) * 10 ^ k' + digitsVal (ds.drop i) = m.natAbs := by
    have := digitsVal_append (ds.take i) (ds.drop i)
    rw [List.take_append_drop, hdrop] at this
    omega
  have hchars : ∀ c ∈ (pyStrNum q).data, isPySpace c = false ∧ c ≠ ',' := by
    intro c hc
    rw [hout] at hc
    rcases List.mem_append.mp hc with hc | hc
    · rcases List.mem_append.mp hc with hc | hc
      · by_cases hmlt : m < 0
        · rw [if_pos hmlt] at hc
          rcases List.mem_singleton.mp hc with rfl
          exact ⟨by decide, by decide⟩
        · rw [if_neg hmlt] at hc
          simp at hc
      · have hd := htake_dig c hc
        exact ⟨isPySpace_false_of_isDigit hd, ne_comma_of_isDigit hd⟩
    · rcases List.mem_cons.mp hc with rfl | hc
      · exact ⟨by decide, by decide⟩
      · have hd := hdrop_dig c hc
        exact ⟨isPySpace_false_of_isDigit hd, ne_comma_of_isDigit hd⟩
  refine ⟨?_, by rw [hout]; simp, hchars⟩
  -- The parse of the printed string gives back q.
  have hneform : (if m < 0 then ['-'] else []) =
      (if decide (m < 0) then ['-'] else []) := by
    simp
  rw [pyFloat, stripPy_eq_self (fun c hc => (hchars c hc).1), hout, hneform,
    pyFloatCore_signed_decimal (decide (m < 0)) _ _ htake_ne htake_dig hdrop_dig,
    hdrop]
  congr 1
  -- Arithmetic: the printed digits denote m / 10 ^ k', which equals q.
  have hQden : ((q.den : ℚ)) ≠ 0 := by positivity
  have hQpow : ((10 : ℚ) ^ k') ≠ 0 := by positivity
  have hsplit : (digitsVal (ds.take i) : ℚ) + (digitsVal (ds.drop i) : ℚ) / 10 ^ k' =
      (m.natAbs : ℚ) / 10 ^ k' := by
    field_simp
    push_cast [← hsplitval]
    ring
  rw [hsplit]
  have habs : (if decide (m < 0) then (-1 : ℚ) else 1) * (m.natAbs : ℚ) = (m : ℚ) := by
    rcases lt_or_le m 0 with hlt | hle
    · rw [if_pos (by simpa using hlt), Int.cast_natAbs, abs_of_neg hlt]
      push_cast
      ring
    · rw [if_neg (by simpa using not_lt.mpr hle), Int.cast_natAbs, abs_of_nonneg hle]
      ring
  have hcastdiv : ((10 ^ k / q.den : ℕ) : ℚ) = (10 : ℚ) ^ k / (q.den : ℚ) := by
    rw [Nat.cast_div hdvd (by exact_mod_cast hden.ne')]
    push_cast
    ring
  have hkle : k ≤ k' := Nat.le_max_left k 1
  have hmq : (m : ℚ) = q * 10 ^ k' := by
    have h10 : (10 : ℚ) ^ k' = 10 ^ k * 10 ^ (k' - k) := by
      rw [← pow_add, Nat.add_sub_cancel' hkle]
    rw [hm]
    generalize hD : (10 ^ k / q.den : ℕ) = D
    rw [hD] at hcastdiv
    push_cast
    rw [hcastdiv, h10]
    conv_rhs => rw [← Rat.num_div_den q]
    field_simp
    ring
  rw [← mul_div_assoc, habs, hmq, mul_div_assoc, div_self hQpow, mul_one]

/-! XML tree navigation and the string round trip. -/

theorem mapM_map_ok {ε α β γ : Type} (f : β → Except ε γ) (g : α → β) (h : α → γ) :
    ∀ l : List α, (∀ a ∈ l, f (g a) = Except.ok (h a)) →
      (l.map g).mapM f = Except.ok (l.map h) := by
  intro l
  induction l with
  | nil => intro _; rfl
  | cons a l ih =>
    intro hall
    rw [List.map_cons, List.mapM_cons, hall a (List.mem_cons_self a l),
      except_bind_ok, ih (fun b hb => hall b (List.mem_cons_of_mem a hb))]
    rfl

theorem findChild_nil (tag pt : String) (ptx : Option String) :
    findChild tag (XNode.elem pt ptx []) = none := rfl

theorem findChild_cons_elem (tag pt t : String) (ptx tx : Option String)
    (cs rest : List XNode) :
    findChild tag (XNode.elem pt ptx (XNode.elem t tx cs :: rest)) =
      if t = tag then some (XNode.elem t tx cs)
      else findChild tag (XNode.elem pt ptx rest) := by
  by_cases h : t = tag
  · simp [findChild, XNode.childrenOf, List.find?_cons, XNode.hasTag, h]
  · simp [findChild, XNode.childrenOf, List.find?_cons, XNode.hasTag, h]

theorem findChild_cons_comment (tag pt : String) (ptx : Option String)
    (s : String) (rest : List XNode) :
    findChild tag (XNode.elem pt ptx (XNode.comment s :: rest)) =
      findChild tag (XNode.elem pt ptx rest) := by
  simp [findChild, XNode.childrenOf, List.find?_cons, XNode.hasTag]

theorem normText_some_of_ne {s : String} (h : s ≠ "") :
    normText (some s) = some s := by
  simp [normText, h]

theorem etRoundTripList_nil : etRoundTripList [] = [] := rfl

theorem etRoundTripList_cons_comment (s : String) (rest : List XNode) :
    etRoundTripList (XNode.comment s :: rest) = etRoundTripList rest := rfl

theorem etRoundTripList_cons_elem (t : String) (tx : Option String)
    (cs rest : List XNode) :
    etRoundTripList (XNode.elem t tx cs :: rest) =
      etRoundTrip (XNode.elem t tx cs) :: etRoundTripList rest := rfl

theorem etRoundTrip_elem (t : String) (tx : Option String) (cs : List XNode) :
    etRoundTrip (XNode.elem t tx cs) =
      XNode.elem t (normText tx) (etRoundTripList cs) := rfl

theorem etRoundTrip_leaf {t : String} {s : String} (h : s ≠ "") :
    etRoundTrip (XNode.elem t (some s) []) = XNode.elem t (some s) [] := by
  rw [etRoundTrip_elem, normText_some_of_ne h, etRoundTripList_nil]

theorem string_ne_empty_of_data {s : String} (h : s.data ≠ []) : s ≠ "" :=
  fun e => h (by rw [e])

theorem joinSep_ne_nil {sep : List Char} {t : List Char} (ht : t ≠ [])
    (ts : List (List Char)) : joinSep sep (t :: ts) ≠ [] := by
  cases ts with
  | nil => simpa [joinSep] using ht
  | cons u ts' =>
    have : joinSep sep (t :: u :: ts') = t ++ sep ++ joinSep sep (u :: ts') := by
      simp [joinSep]
    rw [this]
    simp [ht]

/-! Color quantization. -/

theorem color_trunc_spec {c : ℚ} (h0 : 0 ≤ c) :
    pyTrunc (c * 255 + 1/2) = ⌊c * 255 + 1/2⌋ ∧
      0 ≤ pyTrunc (c * 255 + 1/2) ∧
      |((pyTrunc (c * 255 + 1/2) : ℤ) : ℚ) / 255 - c| ≤ 1 / 255 := by
  have hx : (0 : ℚ) ≤ c * 255 + 1/2 := by positivity
  have htr : pyTrunc (c * 255 + 1/2) = ⌊c * 255 + 1/2⌋ := if_pos hx
  refine ⟨htr, ?_, ?_⟩
  · rw [htr]
    exact Int.floor_nonneg.mpr hx
  · rw [htr, abs_le]
    have hle := Int.floor_le (c * 255 + 1/2)
    have hlt := Int.lt_floor_add_one (c * 255 + 1/2)
    constructor <;> [nlinarith [hlt]; nlinarith [hle]]

/-! Evaluation lemmas: what the serializer emits and what the deserializer
reads back. -/

theorem pyStrInt_data_of_nonneg {m : ℤ} (hm : 0 ≤ m) :
    (pyStrInt m).data = toDigits m.natAbs := by
  simp [pyStrInt, not_lt.mpr hm]

theorem floatExc_pyStrNum {x : ℚ} (h : DecimalRep x) :
    floatExc (pyStrNum x) = Except.ok x := by
  rw [floatExc, (pyStrNum_spec x h).1]

theorem numTokens_colorJoin (cs : List ℚ) (h0 : ∀ c ∈ cs, 0 ≤ c) :
    numTokens (colorJoin cs) =
      cs.map fun c => (pyStrInt (pyTrunc (c * 255 + 1/2))).data := by
  apply numTokens_joinSep (by simp)
  · intro c hc
    rcases List.mem_cons.mp hc with rfl | hc
    · decide
    · rcases List.mem_singleton.mp hc with rfl
      decide
  · intro t ht
    obtain ⟨c, hc, rfl⟩ := List.mem_map.mp ht
    rw [pyStrInt_data_of_nonneg (color_trunc_spec (h0 c hc)).2.1]
    exact (toDigits_spec _).1
  · intro t ht c hcm
    obtain ⟨x, hx, rfl⟩ := List.mem_map.mp ht
    rw [pyStrInt_data_of_nonneg (color_trunc_spec (h0 x hx)).2.1] at hcm
    have hd := (toDigits_spec _).2.1 c hcm
    exact ⟨isPySpace_false_of_isDigit hd, ne_comma_of_isDigit hd⟩

theorem colorJoin_ne_empty {cs : List ℚ} (hne : cs ≠ []) : colorJoin cs ≠ "" := by
  apply string_ne_empty_of_data
  obtain ⟨c, cs', rfl⟩ : ∃ c cs', cs = c :: cs' := by
    cases cs with
    | nil => exact absurd rfl hne
    | cons c cs' => exact ⟨c, cs', rfl⟩
  show joinSep [',', ' '] ((c :: cs').map _) ≠ []
  rw [List.map_cons]
  apply joinSep_ne_nil
  show (pyStrInt (pyTrunc (c * 255 + 1/2))).data ≠ []
  simp [pyStrInt, List.append_eq_nil, (toDigits_spec _).1]

theorem colorFromElem_eval (tg : String) (cs : List ℚ) (h0 : ∀ c ∈ cs, 0 ≤ c) :
    colorFromElem (XNode.elem tg (some (colorJoin cs)) []) =
      Except.ok (cs.map fun c => ((pyTrunc (c * 255 + 1/2) : ℤ) : ℚ) / 255) := by
  show (numTokens (colorJoin cs)).mapM _ = _
  rw [numTokens_colorJoin cs h0]
  apply mapM_map_ok
  intro c hc
  have hm0 : (0 : ℤ) ≤ pyTrunc (c * 255 + 1/2) := (color_trunc_spec (h0 c hc)).2.1
  have hfe : floatExc (String.mk ((pyStrInt (pyTrunc (c * 255 + 1/2))).data)) =
      Except.ok ((pyTrunc (c * 255 + 1/2) : ℤ) : ℚ) := by
    rw [show String.mk ((pyStrInt (pyTrunc (c * 255 + 1/2))).data) =
        pyStrInt (pyTrunc (c * 255 + 1/2)) from rfl,
      floatExc, pyFloat_pyStrInt hm0]
  show (floatExc _ >>= fun v => pure (v / 255)) = _
  rw [hfe, except_bind_ok]
  rfl

theorem rangeText_data (r0 r1 : ℚ) :
    (pyStrNum r0 ++ ", " ++ pyStrNum r1).data =
      joinSep [',', ' '] [(pyStrNum r0).data, (pyStrNum r1).data] := by
  rw [String.data_append, String.data_append]
  simp [joinSep]

theorem numTokens_rangeText (r0 r1 : ℚ) (h0 : DecimalRep r0) (h1 : DecimalRep r1) :
    numTokens (pyStrNum r0 ++ ", " ++ pyStrNum r1) =
      [(pyStrNum r0).data, (pyStrNum r1).data] := by
  have hs : (pyStrNum r0 ++ ", " ++ pyStrNum r1) =
      String.mk (joinSep [',', ' '] [(pyStrNum r0).data, (pyStrNum r1).data]) := by
    calc (pyStrNum r0 ++ ", " ++ pyStrNum r1) =
        String.mk ((pyStrNum r0 ++ ", " ++ pyStrNum r1).data) := rfl
      _ = _ := by rw [rangeText_data]
  rw [hs]
  apply numTokens_joinSep (by simp)
  · intro c hc
    rcases List.mem_cons.mp hc with rfl | hc
    · decide
    · rcases List.mem_singleton.mp hc with rfl
      decide
  · intro t ht
    rcases List.mem_cons.mp ht with rfl | ht
    · exact (pyStrNum_spec r0 h0).2.1
    · rcases List.mem_singleton.mp ht with rfl
      exact (pyStrNum_spec r1 h1).2.1
  · intro t ht c hcm
    rcases List.mem_cons.mp ht with rfl | ht
    · exact (pyStrNum_spec r0 h0).2.2 c hcm
    · rcases List.mem_singleton.mp ht with rfl
      exact (pyStrNum_spec r1 h1).2.2 c hcm

theorem rangeText_ne_empty (r0 r1 : ℚ) (h0 : DecimalRep r0) :
    (pyStrNum r0 ++ ", " ++ pyStrNum r1) ≠ "" := by
  apply string_ne_empty_of_data
  rw [String.data_append, String.data_append]
  intro hcon
  exact (pyStrNum_spec r0 h0).2.1 (by
    have := congrArg (List.take (pyStrNum r0).data.length) hcon
    simpa [List.take_append] using List.append_eq_nil.mp
      (List.append_eq_nil.mp hcon).1 |>.1)

theorem pyStrNum_ne_empty {x : ℚ} (h : DecimalRep x) : pyStrNum x ≠ "" :=
  string_ne_empty_of_data (pyStrNum_spec x h).2.1

theorem parseChannel_eval {ch : XNode} {n d : Option String}
    {cp : Option (List ℚ) × Option (List ℚ)} {rg : List ℚ} {gm : Option ℚ} {al : ℚ}
    (h1 : textFromChannel "name" ch = Except.ok n)
    (h2 : textFromChannel "description" ch = Except.ok d)
    (h3 : colorStep ch = Except.ok cp)
    (h4 : rangeFromChannel ch = Except.ok rg)
    (h5 : gammaFromChannel ch = Except.ok gm)
    (h6 : alphaFromChannel ch = Except.ok al) :
    parseChannel ch = Except.ok
      { name := n, description := d, color := cp.1, color_table := cp.2,
        range := rg, gamma := gm, alpha := al } := by
  rw [parseChannel, h1, except_bind_ok, h2, except_bind_ok, h3, except_bind_ok,
    h4, except_bind_ok, h5, except_bind_ok, h6, except_bind_ok]
  rfl

theorem channelToXml_color {r : Record} {cs : List ℚ} (hc : r.color = some cs)
    {r0 r1 : ℚ} {rest : List ℚ} (hr : r.range = r0 :: r1 :: rest)
    (st : Option (List ℚ)) :
    channelToXml st r = Except.ok (XNode.elem "channel" none
      (XNode.elem "name" r.name [] :: XNode.elem "description" r.description [] ::
       XNode.elem "color" (some (colorJoin cs)) [] ::
       ([XNode.elem "range" (some (pyStrNum r0 ++ ", " ++ pyStrNum r1)) [],
         XNode.elem "alpha" (some (pyStrNum r.alpha)) []] ++
        (match r.gamma with
         | some g => [XNode.elem "gamma" (some (pyStrNum g)) []]
         | none => []))), some cs) := by
  rw [channelToXml.eq_def, hc]
  rw [show tailElems r = Except.ok
      ([XNode.elem "range" (some (pyStrNum r0 ++ ", " ++ pyStrNum r1)) [],
        XNode.elem "alpha" (some (pyStrNum r.alpha)) []] ++
       (match r.gamma with
        | some g => [XNode.elem "gamma" (some (pyStrNum g)) []]
        | none => [])) by rw [tailElems.eq_def, hr]]
  rfl

theorem channelToXml_color_table {r : Record} {cs : List ℚ} (hc : r.color = none)
    (hct : r.color_table = some cs)
    {r0 r1 : ℚ} {rest : List ℚ} (hr : r.range = r0 :: r1 :: rest)
    (st : Option (List ℚ)) :
    channelToXml st r = Except.ok (XNode.elem "channel" none
      (XNode.elem "name" r.name [] :: XNode.elem "description" r.description [] ::
       XNode.elem "color_table" (some (colorJoin cs)) [] ::
       ([XNode.elem "range" (some (pyStrNum r0 ++ ", " ++ pyStrNum r1)) [],
         XNode.elem "alpha" (some (pyStrNum r.alpha)) []] ++
        (match r.gamma with
         | some g => [XNode.elem "gamma" (some (pyStrNum g)) []]
         | none => []))), some cs) := by
  rw [channelToXml.eq_def, hc, hct]
  rw [show tailElems r = Except.ok
      ([XNode.elem "range" (some (pyStrNum r0 ++ ", " ++ pyStrNum r1)) [],
        XNode.elem "alpha" (some (pyStrNum r.alpha)) []] ++
       (match r.gamma with
        | some g => [XNode.elem "gamma" (some (pyStrNum g)) []]
        | none => [])) by rw [tailElems.eq_def, hr]]
  rfl

/-! Per-channel round trip. -/

theorem floatExc_data_pyStrNum {x : ℚ} (h : DecimalRep x) :
    floatExc (String.mk ((pyStrNum x).data)) = Except.ok x := by
  rw [show String.mk ((pyStrNum x).data) = pyStrNum x from rfl, floatExc_pyStrNum h]

theorem parse_channel_color (ns ds' : String) (cs : List ℚ)
    (hcs0 : ∀ c ∈ cs, 0 ≤ c) (r0 r1 al : ℚ)
    (h0 : DecimalRep r0) (h1 : DecimalRep r1) (ha : DecimalRep al) :
    parseChannel (XNode.elem "channel" none
      [XNode.elem "name" (some ns) [], XNode.elem "description" (some ds') [],
       XNode.elem "color" (some (colorJoin cs)) [],
       XNode.elem "range" (some (pyStrNum r0 ++ ", " ++ pyStrNum r1)) [],
       XNode.elem "alpha" (some (pyStrNum al)) []]) =
      Except.ok
        { name := some ns, description := some ds',
          color := some (cs.map fun c => ((pyTrunc (c * 255 + 1/2) : ℤ) : ℚ) / 255),
          color_table := none, range := [r0, r1], gamma := none, alpha := al } := by
  have hfn : findChild "name" (XNode.elem "channel" none
      [XNode.elem "name" (some ns) [], XNode.elem "description" (some ds') [],
       XNode.elem "color" (some (colorJoin cs)) [],
       XNode.elem "range" (some (pyStrNum r0 ++ ", " ++ pyStrNum r1)) [],
       XNode.elem "alpha" (some (pyStrNum al)) []]) =
      some (XNode.elem "name" (some ns) []) := by
    rw [findChild_cons_elem, if_pos rfl]
  have hfd : findChild "description" (XNode.elem "channel" none
      [XNode.elem "name" (some ns) [], XNode.elem "description" (some ds') [],
       XNode.elem "color" (some (colorJoin cs)) [],
       XNode.elem "range" (some (pyStrNum r0 ++ ", " ++ pyStrNum r1)) [],
       XNode.elem "alpha" (some (pyStrNum al)) []]) =
      some (XNode.elem "description" (some ds') []) := by
    rw [findChild_cons_elem, if_neg (by decide), findChild_cons_elem, if_pos rfl]
  have hfc : findChild "color" (XNode.elem "channel" none
      [XNode.elem "name" (some ns) [], XNode.elem "description" (some ds') [],
       XNode.elem "color" (some (colorJoin cs)) [],
       XNode.elem "range" (some (pyStrNum r0 ++ ", " ++ pyStrNum r1)) [],
       XNode.elem "alpha" (some (pyStrNum al)) []]) =
      some (XNode.elem "color" (some (colorJoin cs)) []) := by
    rw [findChild_cons_elem, if_neg (by decide), findChild_cons_elem,
      if_neg (by decide), findChild_cons_elem, if_pos rfl]
  have hfr : findChild "range" (XNode.elem "channel" none
      [XNode.elem "name" (some ns) [], XNode.elem "description" (some ds') [],
       XNode.elem "color" (some (colorJoin cs)) [],
       XNode.elem "range" (some (pyStrNum r0 ++ ", " ++ pyStrNum r1)) [],
       XNode.elem "alpha" (some (pyStrNum al)) []]) =
      some (XNode.elem "range" (some (pyStrNum r0 ++ ", " ++ pyStrNum r1)) []) := by
    rw [findChild_cons_elem, if_neg (by decide), findChild_cons_elem,
      if_neg (by decide), findChild_cons_elem, if_neg (by decide),
      findChild_cons_elem, if_pos rfl]
  have hfg : findChild "gamma" (XNode.elem "channel" none
      [XNode.elem "name" (some ns) [], XNode.elem "description" (some ds') [],
       XNode.elem "color" (some (colorJoin cs)) [],
       XNode.elem "range" (some (pyStrNum r0 ++ ", " ++ pyStrNum r1)) [],
       XNode.elem "alpha" (some (pyStrNum al)) []]) = none := by
    rw [findChild_cons_elem, if_neg (by decide), findChild_cons_elem,
      if_neg (by decide), findChild_cons_elem, if_neg (by decide),
      findChild_cons_elem, if_neg (by decide), findChild_cons_elem,
      if_neg (by decide), findChild_nil]
  have hfa : findChild "alpha" (XNode.elem "channel" none
      [XNode.elem "name" (some ns) [], XNode.elem "description" (some ds') [],
       XNode.elem "color" (some (colorJoin cs)) [],
       XNode.elem "range" (some (pyStrNum r0 ++ ", " ++ pyStrNum r1)) [],
       XNode.elem "alpha" (some (pyStrNum al)) []]) =
      some (XNode.elem "alpha" (some (pyStrNum al)) []) := by
    rw [findChild_cons_elem, if_neg (by decide), findChild_cons_elem,
      if_neg (by decide), findChild_cons_elem, if_neg (by decide),
      findChild_cons_elem, if_neg (by decide), findChild_cons_elem, if_pos rfl]
  refine @parseChannel_eval _ (some ns) (some ds')
    (some (cs.map fun c => ((pyTrunc (c * 255 + 1/2) : ℤ) : ℚ) / 255), none)
    [r0, r1] none al ?_ ?_ ?_ ?_ ?_ ?_
  · simp only [textFromChannel, hfn, XNode.textOf]
  · simp only [textFromChannel, hfd, XNode.textOf]
  · simp only [colorStep, hfc]
    rw [colorFromElem_eval "color" cs hcs0, except_map_ok]
  · simp only [rangeFromChannel, hfr, XNode.textOf]
    rw [numTokens_rangeText r0 r1 h0 h1, List.mapM_cons, floatExc_data_pyStrNum h0,
      except_bind_ok, List.mapM_cons, floatExc_data_pyStrNum h1, except_bind_ok,
      List.mapM_nil]
    rfl
  · simp only [gammaFromChannel, hfg]
  · simp only [alphaFromChannel, hfa, XNode.textOf]
    rw [floatExc_pyStrNum ha]

theorem parse_channel_color_table (ns ds' : String) (cs : List ℚ)
    (hcs0 : ∀ c ∈ cs, 0 ≤ c) (r0 r1 al : ℚ)
    (h0 : DecimalRep r0) (h1 : DecimalRep r1) (ha : DecimalRep al) :
    parseChannel (XNode.elem "channel" none
      [XNode.elem "name" (some ns) [], XNode.elem "description" (some ds') [],
       XNode.elem "color_table" (some (colorJoin cs)) [],
       XNode.elem "range" (some (pyStrNum r0 ++ ", " ++ pyStrNum r1)) [],
       XNode.elem "alpha" (some (pyStrNum al)) []]) =
      Except.ok
        { name := some ns, description := some ds',
          color := none,
          color_table := some (cs.map fun c => ((pyTrunc (c * 255 + 1/2) : ℤ) : ℚ) / 255),
          range := [r0, r1], gamma := none, alpha := al } := by
  have hfn : findChild "name" (XNode.elem "channel" none
      [XNode.elem "name" (some ns) [], XNode.elem "description" (some ds') [],
       XNode.elem "color_table" (some (colorJoin cs)) [],
       XNode.elem "range" (some (pyStrNum r0 ++ ", " ++ pyStrNum r1)) [],
       XNode.elem "alpha" (some (pyStrNum al)) []]) =
      some (XNode.elem "name" (some ns) []) := by
    rw [findChild_cons_elem, if_pos rfl]
  have hfd : findChild "description" (XNode.elem "channel" none
      [XNode.elem "name" (some ns) [], XNode.elem "description" (some ds') [],
       XNode.elem "color_table" (some (colorJoin cs)) [],
       XNode.elem "range" (some (pyStrNum r0 ++ ", " ++ pyStrNum r1)) [],
       XNode.elem "alpha" (some (pyStrNum al)) []]) =
      some (XNode.elem "description" (some ds') []) := by
    rw [findChild_cons_elem, if_neg (by decide), findChild_cons_elem, if_pos rfl]
  have hfc : findChild "color" (XNode.elem "channel" none
      [XNode.elem "name" (some ns) [], XNode.elem "description" (some ds') [],
       XNode.elem "color_table" (some (colorJoin cs)) [],
       XNode.elem "range" (some (pyStrNum r0 ++ ", " ++ pyStrNum r1)) [],
       XNode.elem "alpha" (some (pyStrNum al)) []]) = none := by
    rw [findChild_cons_elem, if_neg (by decide), findChild_cons_elem,
      if_neg (by decide), findChild_cons_elem, if_neg (by decide),
      findChild_cons_elem, if_neg (by decide), findChild_cons_elem,
      if_neg (by decide), findChild_nil]
  have hfct : findChild "color_table" (XNode.elem "channel" none
      [XNode.elem "name" (some ns) [], XNode.elem "description" (some ds') [],
       XNode.elem "color_table" (some (colorJoin cs)) [],
       XNode.elem "range" (some (pyStrNum r0 ++ ", " ++ pyStrNum r1)) [],
       XNode.elem "alpha" (some (pyStrNum al)) []]) =
      some (XNode.elem "color_table" (some (colorJoin cs)) []) := by
    rw [findChild_cons_elem, if_neg (by decide), findChild_cons_elem,
      if_neg (by decide), findChild_cons_elem, if_pos rfl]
  have hfr : findChild "range" (XNode.elem "channel" none
      [XNode.elem "name" (some ns) [], XNode.elem "description" (some ds') [],
       XNode.elem "color_table" (some (colorJoin cs)) [],
       XNode.elem "range" (some (pyStrNum r0 ++ ", " ++ pyStrNum r1)) [],
       XNode.elem "alpha" (some (pyStrNum al)) []]) =
      some (XNode.elem "range" (some (pyStrNum r0 ++ ", " ++ pyStrNum r1)) []) := by
    rw [findChild_cons_elem, if_neg (by decide), findChild_cons_elem,
      if_neg (by decide), findChild_cons_elem, if_neg (by decide),
      findChild_cons_elem, if_pos rfl]
  have hfg : findChild "gamma" (XNode.elem "channel" none
      [XNode.elem "name" (some ns) [], XNode.elem "description" (some ds') [],
       XNode.elem "color_table" (some (colorJoin cs)) [],
       XNode.elem "range" (some (pyStrNum r0 ++ ", " ++ pyStrNum r1)) [],
       XNode.elem "alpha" (some (pyStrNum al)) []]) = none := by
    rw [findChild_cons_elem, if_neg (by decide), findChild_cons_elem,
      if_neg (by decide), findChild_cons_elem, if_neg (by decide),
      findChild_cons_elem, if_neg (by decide), findChild_cons_elem,
      if_neg (by decide), findChild_nil]
  have hfa : findChild "alpha" (XNode.elem "channel" none
      [XNode.elem "name" (some ns) [], XNode.elem "description" (some ds') [],
       XNode.elem "color_table" (some (colorJoin cs)) [],
       XNode.elem "range" (some (pyStrNum r0 ++ ", " ++ pyStrNum r1)) [],
       XNode.elem "alpha" (some (pyStrNum al)) []]) =
      some (XNode.elem "alpha" (some (pyStrNum al)) []) := by
    rw [findChild_cons_elem, if_neg (by decide), findChild_cons_elem,
      if_neg (by decide), findChild_cons_elem, if_neg (by decide),
      findChild_cons_elem, if_neg (by decide), findChild_cons_elem, if_pos rfl]
  refine @parseChannel_eval _ (some ns) (some ds')
    (none, some (cs.map fun c => ((pyTrunc (c * 255 + 1/2) : ℤ) : ℚ) / 255))
    [r0, r1] none al ?_ ?_ ?_ ?_ ?_ ?_
  · simp only [textFromChannel, hfn, XNode.textOf]
  · simp only [textFromChannel, hfd, XNode.textOf]
  · simp only [colorStep, hfc, hfct]
    rw [colorFromElem_eval "color_table" cs hcs0, except_map_ok]
  · simp only [rangeFromChannel, hfr, XNode.textOf]
    rw [numTokens_rangeText r0 r1 h0 h1, List.mapM_cons, floatExc_data_pyStrNum h0,
      except_bind_ok, List.mapM_cons, floatExc_data_pyStrNum h1, except_bind_ok,
      List.mapM_nil]
    rfl
  · simp only [gammaFromChannel, hfg]
  · simp only [alphaFromChannel, hfa, XNode.textOf]
    rw [floatExc_pyStrNum ha]

theorem channel_round_trip (r : Record) (hwf : WF r) (st : Option (List ℚ)) :
    ∃ chan st' r', channelToXml st r = Except.ok (chan, st') ∧
      chan.isComment = false ∧ etRoundTrip chan = chan ∧
      parseChannel chan = Except.ok r' ∧ CloseRec r' r := by
  obtain ⟨ns, hn, hnne⟩ := hwf.name_some
  obtain ⟨ds', hd, hdne⟩ := hwf.desc_some
  obtain ⟨r0, r1, hr⟩ := List.length_eq_two.mp hwf.range_two
  have h0dec : DecimalRep r0 := hwf.range_dec r0 (by rw [hr]; exact List.mem_cons_self _ _)
  have h1dec : DecimalRep r1 := hwf.range_dec r1 (by rw [hr]; simp)
  have hadec := hwf.alpha_dec
  have hg := hwf.gamma_none
  rcases hwf.color_excl with ⟨hct, cs, hcs, hcsne, hcsb⟩ | ⟨hc, cs, hcs, hcsne, hcsb⟩
  · have hcs0 : ∀ c ∈ cs, 0 ≤ c := fun c hc' => (hcsb c hc').1
    have hser : channelToXml st r = Except.ok (XNode.elem "channel" none
        [XNode.elem "name" (some ns) [], XNode.elem "description" (some ds') [],
         XNode.elem "color" (some (colorJoin cs)) [],
         XNode.elem "range" (some (pyStrNum r0 ++ ", " ++ pyStrNum r1)) [],
         XNode.elem "alpha" (some (pyStrNum r.alpha)) []], some cs) := by
      rw [channelToXml_color hcs hr st, hn, hd, hg]
      rfl
    have hrt : etRoundTrip (XNode.elem "channel" none
        [XNode.elem "name" (some ns) [], XNode.elem "description" (some ds') [],
         XNode.elem "color" (some (colorJoin cs)) [],
         XNode.elem "range" (some (pyStrNum r0 ++ ", " ++ pyStrNum r1)) [],
         XNode.elem "alpha" (some (pyStrNum r.alpha)) []]) =
        XNode.elem "channel" none
        [XNode.elem "name" (some ns) [], XNode.elem "description" (some ds') [],
         XNode.elem "color" (some (colorJoin cs)) [],
         XNode.elem "range" (some (pyStrNum r0 ++ ", " ++ pyStrNum r1)) [],
         XNode.elem "alpha" (some (pyStrNum r.alpha)) []] := by
      simp only [etRoundTrip_elem, etRoundTripList_cons_elem, etRoundTripList_nil,
        etRoundTrip_leaf hnne, etRoundTrip_leaf hdne,
        etRoundTrip_leaf (colorJoin_ne_empty hcsne),
        etRoundTrip_leaf (rangeText_ne_empty r0 r1 h0dec),
        etRoundTrip_leaf (pyStrNum_ne_empty hadec), normText]
    refine ⟨_, _, _, hser, rfl, hrt,
      parse_channel_color ns ds' cs hcs0 r0 r1 r.alpha h0dec h1dec hadec,
      hn.symm, hd.symm, hr.symm, rfl, hg.symm, ?_, ?_⟩
    · rw [hcs]
      refine ⟨by simp, ?_⟩
      intro i h1 h2
      simp only [List.get_eq_getElem, List.getElem_map]
      exact (color_trunc_spec (hcs0 _ (List.getElem_mem _))).2.2
    · rw [hct]
      trivial
  · have hcs0 : ∀ c ∈ cs, 0 ≤ c := fun c hc' => (hcsb c hc').1
    have hser : channelToXml st r = Except.ok (XNode.elem "channel" none
        [XNode.elem "name" (some ns) [], XNode.elem "description" (some ds') [],
         XNode.elem "color_table" (some (colorJoin cs)) [],
         XNode.elem "range" (some (pyStrNum r0 ++ ", " ++ pyStrNum r1)) [],
         XNode.elem "alpha" (some (pyStrNum r.alpha)) []], some cs) := by
      rw [channelToXml_color_table hc hcs hr st, hn, hd, hg]
      rfl
    have hrt : etRoundTrip (XNode.elem "channel" none
        [XNode.elem "name" (some ns) [], XNode.elem "description" (some ds') [],
         XNode.elem "color_table" (some (colorJoin cs)) [],
         XNode.elem "range" (some (pyStrNum r0 ++ ", " ++ pyStrNum r1)) [],
         XNode.elem "alpha" (some (pyStrNum r.alpha)) []]) =
        XNode.elem "channel" none
        [XNode.elem "name" (some ns) [], XNode.elem "description" (some ds') [],
         XNode.elem "color_table" (some (colorJoin cs)) [],
         XNode.elem "range" (some (pyStrNum r0 ++ ", " ++ pyStrNum r1)) [],
         XNode.elem "alpha" (some (pyStrNum r.alpha)) []] := by
      simp only [etRoundTrip_elem, etRoundTripList_cons_elem, etRoundTripList_nil,
        etRoundTrip_leaf hnne, etRoundTrip_leaf hdne,
        etRoundTrip_leaf (colorJoin_ne_empty hcsne),
        etRoundTrip_leaf (rangeText_ne_empty r0 r1 h0dec),
        etRoundTrip_leaf (pyStrNum_ne_empty hadec), normText]
    refine ⟨_, _, _, hser, rfl, hrt,
      parse_channel_color_table ns ds' cs hcs0 r0 r1 r.alpha h0dec h1dec hadec,
      hn.symm, hd.symm, hr.symm, rfl, hg.symm, ?_, ?_⟩
    · rw [hc]
      trivial
    · rw [hcs]
      refine ⟨by simp, ?_⟩
      intro i h1 h2
      simp only [List.get_eq_getElem, List.getElem_map]
      exact (color_trunc_spec (hcs0 _ (List.getElem_mem _))).2.2

theorem channels_round_trip (rs : List Record) (h : ∀ r ∈ rs, WF r) :
    ∀ st, ∃ chans recs, channelsToXml st rs = Except.ok chans ∧
      (etRoundTripList chans).mapM parseChannel = Except.ok recs ∧
      recs.length = rs.length ∧
      ∀ i (h1 : i < recs.length) (h2 : i < rs.length),
        CloseRec (recs.get ⟨i, h1⟩) (rs.get ⟨i, h2⟩) := by
  induction rs with
  | nil =>
    intro st
    exact ⟨[], [], rfl, rfl, rfl, fun i h1 _ => absurd h1 (Nat.not_lt_zero i)⟩
  | cons r rs ih =>
    intro st
    obtain ⟨chan, st', r', hser, hnc, hrt, hparse, hclose⟩ :=
      channel_round_trip r (h r (List.mem_cons_self r rs)) st
    obtain ⟨chans, recs, hsers, hparses, hlen, hpt⟩ :=
      ih (fun v hv => h v (List.mem_cons_of_mem r hv)) st'
    refine ⟨chan :: chans, r' :: recs, ?_, ?_, by simp [hlen], ?_⟩
    · rw [channelsToXml, hser, except_bind_ok, hsers, except_bind_ok]
      rfl
    · have hl : etRoundTripList (chan :: chans) = chan :: etRoundTripList chans := by
        cases chan with
        | elem t tx cs => rw [etRoundTripList_cons_elem, hrt]
        | comment s => simp [XNode.isComment] at hnc
      rw [hl, List.mapM_cons, hparse, except_bind_ok, hparses, except_bind_ok]
      rfl
    · intro i h1 h2
      match i with
      | 0 => exact hclose
      | j + 1 =>
        exact hpt j (Nat.lt_of_succ_lt_succ h1) (Nat.lt_of_succ_lt_succ h2)

/-! Order preservation helpers. -/

theorem channelToXml_name {st : Option (List ℚ)} {r : Record}
    {p : XNode × Option (List ℚ)} (h : channelToXml st r = Except.ok p) :
    findChild "name" p.1 = some (XNode.elem "name" r.name []) := by
  rw [channelToXml.eq_def] at h
  split at h
  · cases ht : tailElems r with
    | error e => rw [ht, except_bind_error] at h; cases h
    | ok tail =>
      rw [ht, except_bind_ok, except_pure] at h
      injection h with h
      subst h
      dsimp only
      rw [findChild_cons_elem, if_pos rfl]
  · split at h
    · cases ht : tailElems r with
      | error e => rw [ht, except_bind_error] at h; cases h
      | ok tail =>
        rw [ht, except_bind_ok, except_pure] at h
        injection h with h
        subst h
        dsimp only
        rw [findChild_cons_elem, if_pos rfl]
    · split at h
      · cases h
      · cases ht : tailElems r with
        | error e => rw [ht, except_bind_error] at h; cases h
        | ok tail =>
          rw [ht, except_bind_ok, except_pure] at h
          injection h with h
          subst h
          dsimp only
          rw [findChild_cons_elem, if_pos rfl]

theorem channelsToXml_names :
    ∀ (rs : List Record) (st : Option (List ℚ)) (cs : List XNode),
      channelsToXml st rs = Except.ok cs →
      cs.length = rs.length ∧
      ∀ i (h1 : i < cs.length) (h2 : i < rs.length),
        findChild "name" (cs.get ⟨i, h1⟩) =
          some (XNode.elem "name" ((rs.get ⟨i, h2⟩).name) []) := by
  intro rs
  induction rs with
  | nil =>
    intro st cs h
    cases h
    exact ⟨rfl, fun i h1 _ => absurd h1 (Nat.not_lt_zero i)⟩
  | cons r rs ih =>
    intro st cs h
    rw [channelsToXml] at h
    cases hp : channelToXml st r with
    | error e => rw [hp, except_bind_error] at h; cases h
    | ok p =>
      rw [hp, except_bind_ok] at h
      cases hxs : channelsToXml p.2 rs with
      | error e => rw [hxs, except_bind_error] at h; cases h
      | ok xs =>
        rw [hxs, except_bind_ok, except_pure] at h
        injection h with h
        subst h
        obtain ⟨hlen, hpt⟩ := ih p.2 xs hxs
        refine ⟨by simp [hlen], ?_⟩
        intro i h1 h2
        match i with
        | 0 => exact channelToXml_name hp
        | j + 1 => exact hpt j (Nat.lt_of_succ_lt_succ h1) (Nat.lt_of_succ_lt_succ h2)

/-- Claim C6: the deserializer returns one record per channel element in
document order, and the serializer emits — after the fixed leading comment —
one channel element per record in list order; the i-th record/channel
corresponds to the i-th channel/record (witnessed by its `name` content). -/
theorem c6_order_preservation :
    (∀ (root : XNode) (recs : List Record),
        channels_information_xml2list root = Except.ok recs →
        recs.length = root.childrenOf.length ∧
        ∀ i (h1 : i < root.childrenOf.length) (h2 : i < recs.length),
          parseChannel (root.childrenOf.get ⟨i, h1⟩) =
            Except.ok (recs.get ⟨i, h2⟩)) ∧
    (∀ (rs : List Record) (root : XNode),
        channels_information_list2xml rs = Except.ok root →
        ∃ cs, root.childrenOf = XNode.comment "generated by SimpleITK" :: cs ∧
          cs.length = rs.length ∧
          ∀ i (h1 : i < cs.length) (h2 : i < rs.length),
            findChild "name" (cs.get ⟨i, h1⟩) =
              some (XNode.elem "name" ((rs.get ⟨i, h2⟩).name) [])) := by
  constructor
  · intro root recs h
    obtain ⟨hlen, hpt⟩ := mapM_ok_pointwise h
    exact ⟨hlen, fun i h1 h2 => hpt i h1 h2⟩
  · intro rs root h
    rw [channels_information_list2xml] at h
    cases hcs : channelsToXml none rs with
    | error e => rw [hcs] at h; cases h
    | ok cs =>
      rw [hcs, except_map_ok] at h
      injection h with h
      subst h
      obtain ⟨hlen, hpt⟩ := channelsToXml_names rs none cs hcs
      exact ⟨cs, rfl, hlen, hpt⟩

/-- Witness for C6 at a concrete one-channel document and a concrete
one-record list. -/
theorem c6_order_preservation_witness :
    (([{ name := some "n", description := some "d", color := some [1],
         color_table := none, range := [0, 1], gamma := none,
         alpha := 1 }] : List Record).length =
      (XNode.elem "imaris_channels_information" none
        [XNode.elem "channel" none
          [XNode.elem "name" (some "n") [],
           XNode.elem "description" (some "d") [],
           XNode.elem "color" (some "255") [],
           XNode.elem "range" (some "0, 1") [],
           XNode.elem "alpha" (some "1") []]]).childrenOf.length) ∧
    (∃ cs, (XNode.elem "imaris_channels_information" none
        [XNode.comment "generated by SimpleITK"]).childrenOf =
          XNode.comment "generated by SimpleITK" :: cs ∧
        cs.length = ([] : List Record).length ∧
        ∀ i (h1 : i < cs.length) (h2 : i < ([] : List Record).length),
          findChild "name" (cs.get ⟨i, h1⟩) =
            some (XNode.elem "name" ((([] : List Record).get ⟨i, h2⟩).name) [])) := by
  constructor
  · exact (c6_order_preservation.1
      (XNode.elem "imaris_channels_information" none
        [XNode.elem "channel" none
          [XNode.elem "name" (some "n") [],
           XNode.elem "description" (some "d") [],
           XNode.elem "color" (some "255") [],
           XNode.elem "range" (some "0, 1") [],
           XNode.elem "alpha" (some "1") []]])
      [{ name := some "n", description := some "d", color := some [1],
         color_table := none, range := [0, 1], gamma := none, alpha := 1 }]
      (by with_unfolding_all rfl)).1.symm
  · exact c6_order_preservation.2 []
      (XNode.elem "imaris_channels_information" none
        [XNode.comment "generated by SimpleITK"]) rfl

/-- Claim C8: joining numeric tokens with `","`, `", "` or whitespace only and
tokenizing as the deserializer's numeric-list fields do yields the same token
list, hence identical parsed numeric sequences. -/
theorem c8_separator_tolerance (ts : List (List Char))
    (hne : ∀ t ∈ ts, t ≠ [])
    (hch : ∀ t ∈ ts, ∀ c ∈ t, isPySpace c = false ∧ c ≠ ',') :
    numTokens (String.mk (joinSep [','] ts)) = ts ∧
    numTokens (String.mk (joinSep [',', ' '] ts)) = ts ∧
    numTokens (String.mk (joinSep [' ', ' '] ts)) = ts ∧
    (numTokens (String.mk (joinSep [','] ts))).mapM
        (fun t => floatExc (String.mk t)) =
      (numTokens (String.mk (joinSep [',', ' '] ts))).mapM
        (fun t => floatExc (String.mk t)) ∧
    (numTokens (String.mk (joinSep [',', ' '] ts))).mapM
        (fun t => floatExc (String.mk t)) =
      (numTokens (String.mk (joinSep [' ', ' '] ts))).mapM
        (fun t => floatExc (String.mk t)) := by
  have h1 : numTokens (String.mk (joinSep [','] ts)) = ts := by
    apply numTokens_joinSep (by simp) ?_ ts hne hch
    intro c hc
    rcases List.mem_singleton.mp hc with rfl
    decide
  have h2 : numTokens (String.mk (joinSep [',', ' '] ts)) = ts := by
    apply numTokens_joinSep (by simp) ?_ ts hne hch
    intro c hc
    rcases List.mem_cons.mp hc with rfl | hc
    · decide
    · rcases List.mem_singleton.mp hc with rfl
      decide
  have h3 : numTokens (String.mk (joinSep [' ', ' '] ts)) = ts := by
    apply numTokens_joinSep (by simp) ?_ ts hne hch
    intro c hc
    rcases List.mem_cons.mp hc with rfl | hc
    · decide
    · rcases List.mem_singleton.mp hc with rfl
      decide
  refine ⟨h1, h2, h3, ?_, ?_⟩
  · rw [h1, h2]
  · rw [h2, h3]

/-- Witness for C8 at the spec's example tokens `1`, `2`, `3`. -/
theorem c8_separator_tolerance_witness :
    numTokens (String.mk (joinSep [','] [['1'], ['2'], ['3']])) =
        [['1'], ['2'], ['3']] ∧
    numTokens (String.mk (joinSep [',', ' '] [['1'], ['2'], ['3']])) =
        [['1'], ['2'], ['3']] ∧
    numTokens (String.mk (joinSep [' ', ' '] [['1'], ['2'], ['3']])) =
        [['1'], ['2'], ['3']] ∧
    (numTokens (String.mk (joinSep [','] [['1'], ['2'], ['3']]))).mapM
        (fun t => floatExc (String.mk t)) =
      (numTokens (String.mk (joinSep [',', ' '] [['1'], ['2'], ['3']]))).mapM
        (fun t => floatExc (String.mk t)) ∧
    (numTokens (String.mk (joinSep [',', ' '] [['1'], ['2'], ['3']]))).mapM
        (fun t => floatExc (String.mk t)) =
      (numTokens (String.mk (joinSep [' ', ' '] [['1'], ['2'], ['3']]))).mapM
        (fun t => floatExc (String.mk t)) :=
  c8_separator_tolerance [['1'], ['2'], ['3']] (by decide) (by decide)

/-- Claim C7: every color or color_table component `c` in `[0,1]` is encoded
as the integer `⌊c*255 + 0.5⌋` (add 0.5 to the scaled value, then truncate)
and the integers are joined with the exact separator `", "`. -/
theorem c7_color_encoding (st : Option (List ℚ)) (r : Record) (cs : List ℚ)
    (hcs : ∀ c ∈ cs, 0 ≤ c ∧ c ≤ 1) (p : XNode × Option (List ℚ))
    (hok : channelToXml st r = Except.ok p) :
    (r.color = some cs →
      findChild "color" p.1 = some (XNode.elem "color"
        (some (String.mk (joinSep [',', ' ']
          (cs.map fun c => (pyStrInt ⌊c * 255 + 1/2⌋).data)))) [])) ∧
    (r.color = none → r.color_table = some cs →
      findChild "color_table" p.1 = some (XNode.elem "color_table"
        (some (String.mk (joinSep [',', ' ']
          (cs.map fun c => (pyStrInt ⌊c * 255 + 1/2⌋).data)))) [])) := by
  have hjoin : colorJoin cs = String.mk (joinSep [',', ' ']
      (cs.map fun c => (pyStrInt ⌊c * 255 + 1/2⌋).data)) := by
    unfold colorJoin
    congr 2
    apply List.map_congr_left
    intro c hc
    rw [(color_trunc_spec (hcs c hc).1).1]
  rw [channelToXml.eq_def] at hok
  split at hok
  · rename_i cs0 hc0
    cases ht : tailElems r with
    | error e => rw [ht, except_bind_error] at hok; cases hok
    | ok tail =>
      rw [ht, except_bind_ok, except_pure] at hok
      injection hok with hok
      subst hok
      dsimp only
      constructor
      · intro hcol
        rw [hc0] at hcol
        injection hcol with hcol
        subst hcol
        rw [findChild_cons_elem, if_neg (by decide), findChild_cons_elem,
          if_neg (by decide), findChild_cons_elem, if_pos rfl, hjoin]
      · intro hnone _
        rw [hc0] at hnone
        cases hnone
  · split at hok
    · rename_i hc0 _x cs0 hct0
      cases ht : tailElems r with
      | error e => rw [ht, except_bind_error] at hok; cases hok
      | ok tail =>
        rw [ht, except_bind_ok, except_pure] at hok
        injection hok with hok
        subst hok
        dsimp only
        constructor
        · intro hcol
          rw [hc0] at hcol
          cases hcol
        · intro _ hct
          rw [hct0] at hct
          injection hct with hct
          subst hct
          rw [findChild_cons_elem, if_neg (by decide), findChild_cons_elem,
            if_neg (by decide), findChild_cons_elem, if_pos rfl, hjoin]
    · split at hok
      · cases hok
      · refine ⟨?_, ?_⟩
        · intro hcol
          simp_all
        · intro _ _hct
          simp_all

/-- Witness for C7 at a concrete half-intensity color component. -/
theorem c7_color_encoding_witness :
    (∀ c ∈ [(1 : ℚ)/2], 0 ≤ c ∧ c ≤ 1) ∧
    (({ name := some "n", description := some "d", color := some [(1 : ℚ)/2],
        color_table := none, range := [0, 1], gamma := none,
        alpha := 1 } : Record).color = some [(1 : ℚ)/2] →
      findChild "color" (XNode.elem "channel" none
        [XNode.elem "name" (some "n") [],
         XNode.elem "description" (some "d") [],
         XNode.elem "color" (some "128") [],
         XNode.elem "range" (some "0.0, 1.0") [],
         XNode.elem "alpha" (some "1.0") []], some [(1 : ℚ)/2]).1 =
        some (XNode.elem "color"
          (some (String.mk (joinSep [',', ' ']
            ([(1 : ℚ)/2].map fun c => (pyStrInt ⌊c * 255 + 1/2⌋).data)))) [])) := by
  refine ⟨by with_unfolding_all decide, ?_⟩
  exact (c7_color_encoding none
    { name := some "n", description := some "d", color := some [(1 : ℚ)/2],
      color_table := none, range := [0, 1], gamma := none, alpha := 1 }
    [(1 : ℚ)/2] (by with_unfolding_all decide)
    (XNode.elem "channel" none
      [XNode.elem "name" (some "n") [],
       XNode.elem "description" (some "d") [],
       XNode.elem "color" (some "128") [],
       XNode.elem "range" (some "0.0, 1.0") [],
       XNode.elem "alpha" (some "1.0") []], some [(1 : ℚ)/2])
    (by with_unfolding_all rfl)).1

/-- Claim C9: a record carrying both `color` and `color_table` serializes
without any error; the emitted channel holds a `color` element encoding the
`color` value and no `color_table` element at all. -/
theorem c9_color_shadows_color_table (st : Option (List ℚ)) (r : Record)
    (cs cts : List ℚ) (hc : r.color = some cs) (_hct : r.color_table = some cts)
    (r0 r1 : ℚ) (rest : List ℚ) (hr : r.range = r0 :: r1 :: rest) :
    ∃ x, channelToXml st r = Except.ok (x, some cs) ∧
      findChild "color" x = some (XNode.elem "color" (some (colorJoin cs)) []) ∧
      findChild "color_table" x = none := by
  refine ⟨_, channelToXml_color hc hr st, ?_, ?_⟩
  · rw [findChild_cons_elem, if_neg (by decide), findChild_cons_elem,
      if_neg (by decide), findChild_cons_elem, if_pos rfl]
  · cases hgm : r.gamma with
    | none =>
      simp only [hgm, List.append_nil]
      rw [findChild_cons_elem, if_neg (by decide), findChild_cons_elem,
        if_neg (by decide), findChild_cons_elem, if_neg (by decide),
        findChild_cons_elem, if_neg (by decide), findChild_cons_elem,
        if_neg (by decide), findChild_nil]
    | some g =>
      simp only [hgm, List.cons_append, List.nil_append]
      rw [findChild_cons_elem, if_neg (by decide), findChild_cons_elem,
        if_neg (by decide), findChild_cons_elem, if_neg (by decide),
        findChild_cons_elem, if_neg (by decide), findChild_cons_elem,
        if_neg (by decide), findChild_cons_elem, if_neg (by decide),
        findChild_nil]

/-- Witness for C9 at a concrete record holding both color keys. -/
theorem c9_color_shadows_color_table_witness :
    ∃ x, channelToXml none
        { name := some "n", description := some "d", color := some [1],
          color_table := some [0], range := [0, 1], gamma := none,
          alpha := 1 } = Except.ok (x, some [1]) ∧
      findChild "color" x = some (XNode.elem "color" (some (colorJoin [1])) []) ∧
      findChild "color_table" x = none :=
  c9_color_shadows_color_table none
    { name := some "n", description := some "d", color := some [1],
      color_table := some [0], range := [0, 1], gamma := none, alpha := 1 }
    [1] [0] rfl rfl 0 1 [] rfl

theorem find?_filter_of_imp {p q : XNode → Bool}
    (h : ∀ x, p x = true → q x = true) :
    ∀ l : List XNode, (l.filter q).find? p = l.find? p := by
  intro l
  induction l with
  | nil => rfl
  | cons x l ih =>
    by_cases hq : q x = true
    · rw [List.filter_cons_of_pos hq]
      cases hp : p x
      · rw [List.find?_cons_of_neg _ (by simp [hp]), List.find?_cons_of_neg _ (by simp [hp]), ih]
      · rw [List.find?_cons_of_pos _ hp, List.find?_cons_of_pos _ hp]
    · have hp : p x = false := by
        cases hp : p x
        · rfl
        · exact absurd (h x hp) hq
      rw [List.filter_cons_of_neg (by simp [hq]), ih,
        List.find?_cons_of_neg _ (by simp [hp])]

theorem findChild_eraseColorTable {tag : String} (htag : tag ≠ "color_table")
    (ch : XNode) :
    findChild tag (eraseColorTable ch) = findChild tag ch := by
  cases ch with
  | comment s => rfl
  | elem t tx cs =>
    show (cs.filter _).find? _ = cs.find? _
    apply find?_filter_of_imp
    intro x hx
    cases x with
    | comment s => simp [XNode.hasTag] at hx
    | elem t' tx' cs' =>
      simp only [XNode.hasTag, decide_eq_true_eq] at hx
      subst hx
      simp [XNode.hasTag, htag]

/-- Claim C10: when a channel element has a `color` child, the deserializer
stores the color value under the `color` key and ignores every `color_table`
child entirely (removing them does not change the parse, and the resulting
record never carries a `color_table` key). -/
theorem c10_color_read_color_table_ignored (ch ce : XNode)
    (hc : findChild "color" ch = some ce) :
    parseChannel (eraseColorTable ch) = parseChannel ch ∧
    ∀ r, parseChannel ch = Except.ok r → r.color_table = none := by
  have e1 : textFromChannel "name" (eraseColorTable ch) =
      textFromChannel "name" ch := by
    simp only [textFromChannel, @findChild_eraseColorTable "name" (by decide) ch]
  have e2 : textFromChannel "description" (eraseColorTable ch) =
      textFromChannel "description" ch := by
    simp only [textFromChannel,
      @findChild_eraseColorTable "description" (by decide) ch]
  have e3 : colorStep (eraseColorTable ch) = colorStep ch := by
    simp only [colorStep, @findChild_eraseColorTable "color" (by decide) ch, hc]
  have e4 : rangeFromChannel (eraseColorTable ch) = rangeFromChannel ch := by
    simp only [rangeFromChannel,
      @findChild_eraseColorTable "range" (by decide) ch]
  have e5 : gammaFromChannel (eraseColorTable ch) = gammaFromChannel ch := by
    simp only [gammaFromChannel,
      @findChild_eraseColorTable "gamma" (by decide) ch]
  have e6 : alphaFromChannel (eraseColorTable ch) = alphaFromChannel ch := by
    simp only [alphaFromChannel,
      @findChild_eraseColorTable "alpha" (by decide) ch]
  have hcs : colorStep ch = (colorFromElem ce).map fun v => (some v, none) := by
    simp only [colorStep, hc]
  refine ⟨by simp only [parseChannel, e1, e2, e3, e4, e5, e6], ?_⟩
  intro r h
  rw [parseChannel] at h
  cases h1 : textFromChannel "name" ch with
  | error e => rw [h1, except_bind_error] at h; cases h
  | ok n =>
  rw [h1, except_bind_ok] at h
  cases h2 : textFromChannel "description" ch with
  | error e => rw [h2, except_bind_error] at h; cases h
  | ok d =>
  rw [h2, except_bind_ok] at h
  cases hcf : colorFromElem ce with
  | error e =>
    rw [hcs, hcf,
      show ((Except.error e : Except DesErr (List ℚ)).map
        (fun v => ((some v : Option (List ℚ)), (none : Option (List ℚ))))) =
        (Except.error e : Except DesErr (Option (List ℚ) × Option (List ℚ)))
        from rfl, except_bind_error] at h
    cases h
  | ok v =>
  rw [hcs, hcf] at h
  rw [show ((Except.ok v : Except DesErr (List ℚ)).map
      (fun v => ((some v : Option (List ℚ)), (none : Option (List ℚ))))) =
      Except.ok (some v, none) from rfl, except_bind_ok] at h
  cases h4 : rangeFromChannel ch with
  | error e => rw [h4, except_bind_error] at h; cases h
  | ok rg =>
  rw [h4, except_bind_ok] at h
  cases h5 : gammaFromChannel ch with
  | error e => rw [h5, except_bind_error] at h; cases h
  | ok gm =>
  rw [h5, except_bind_ok] at h
  cases h6 : alphaFromChannel ch with
  | error e => rw [h6, except_bind_error] at h; cases h
  | ok al =>
  rw [h6, except_bind_ok, except_pure] at h
  injection h with h
  subst h
  rfl

/-- Witness for C10 at a concrete channel holding both a color and a
color_table child. -/
theorem c10_color_read_color_table_ignored_witness :
    parseChannel (eraseColorTable (XNode.elem "channel" none
      [XNode.elem "color" (some "255") [],
       XNode.elem "color_table" (some "0") []])) =
      parseChannel (XNode.elem "channel" none
        [XNode.elem "color" (some "255") [],
         XNode.elem "color_table" (some "0") []]) ∧
    ∀ r, parseChannel (XNode.elem "channel" none
        [XNode.elem "color" (some "255") [],
         XNode.elem "color_table" (some "0") []]) = Except.ok r →
      r.color_table = none :=
  c10_color_read_color_table_ignored
    (XNode.elem "channel" none
      [XNode.elem "color" (some "255") [],
       XNode.elem "color_table" (some "0") []])
    (XNode.elem "color" (some "255") []) (by with_unfolding_all rfl)

/-- Claim C1, amended: for record lists in which every record has a non-empty
name and description, a two-float range, an alpha, no gamma key, and exactly
one of color/color_table set to a non-empty list of components in `[0,1]`
(all numeric values Python-float representable), deserializing the string
produced by serializing the list reproduces it: every color component within
`1/255` and every other field exactly.  (The unamended claim fails: a gamma
key is silently dropped by the round trip, see the counterexample.) -/
theorem c1_round_trip (rs : List Record) (hwf : ∀ r ∈ rs, WF r) :
    ∃ root recs, channels_information_list2xml rs = Except.ok root ∧
      channels_information_xml2list (etRoundTrip root) = Except.ok recs ∧
      recs.length = rs.length ∧
      ∀ i (h1 : i < recs.length) (h2 : i < rs.length),
        CloseRec (recs.get ⟨i, h1⟩) (rs.get ⟨i, h2⟩) := by
  obtain ⟨chans, recs, hser, hparse, hlen, hpt⟩ := channels_round_trip rs hwf none
  refine ⟨XNode.elem "imaris_channels_information" none
    (XNode.comment "generated by SimpleITK" :: chans), recs, ?_, ?_, hlen, hpt⟩
  · rw [channels_information_list2xml, hser, except_map_ok]
  · rw [channels_information_xml2list, etRoundTrip_elem,
      etRoundTripList_cons_comment]
    exact hparse

/-- Witness for C1 at the spec's concrete DAPI record. -/
theorem c1_round_trip_witness :
    ∃ root recs,
      channels_information_list2xml
        [{ name := some "DAPI", description := some "Nuclei",
           color := some [0, 0, 1], color_table := none, range := [0, 4095],
           gamma := none, alpha := 1 }] = Except.ok root ∧
      channels_information_xml2list (etRoundTrip root) = Except.ok recs ∧
      recs.length =
        ([{ name := some "DAPI", description := some "Nuclei",
            color := some [0, 0, 1], color_table := none, range := [0, 4095],
            gamma := none, alpha := 1 }] : List Record).length ∧
      ∀ i (h1 : i < recs.length)
        (h2 : i <
          ([{ name := some "DAPI", description := some "Nuclei",
              color := some [0, 0, 1], color_table := none, range := [0, 4095],
              gamma := none, alpha := 1 }] : List Record).length),
        CloseRec (recs.get ⟨i, h1⟩)
          (([{ name := some "DAPI", description := some "Nuclei",
               color := some [0, 0, 1], color_table := none, range := [0, 4095],
               gamma := none, alpha := 1 }] : List Record).get ⟨i, h2⟩) :=
  c1_round_trip
    [{ name := some "DAPI", description := some "Nuclei",
       color := some [0, 0, 1], color_table := none, range := [0, 4095],
       gamma := none, alpha := 1 }]
    (by
      intro r hr
      rcases List.mem_singleton.mp hr with rfl
      refine ⟨⟨"DAPI", rfl, by decide⟩, ⟨"Nuclei", rfl, by decide⟩, rfl, ?_,
        by decide, rfl, Or.inl ⟨rfl, [0, 0, 1], rfl, by decide, ?_⟩⟩
      · intro x hx
        rcases List.mem_cons.mp hx with rfl | hx
        · decide
        · rcases List.mem_singleton.mp hx with rfl
          decide
      · intro c hcx
        rcases List.mem_cons.mp hcx with rfl | hcx
        · exact ⟨le_refl 0, by norm_num⟩
        · rcases List.mem_cons.mp hcx with rfl | hcx
          · exact ⟨le_refl 0, by norm_num⟩
          · rcases List.mem_singleton.mp hcx with rfl
            exact ⟨by norm_num, le_refl 1⟩)

/-- Counterexample to claim C1 as stated: a record satisfying the claim's
premise (name, description, range, alpha and exactly one color present, the
components in `[0,1]`) that also carries a gamma key is not reproduced — the
round trip silently drops the gamma field, so the records are not equal. -/
theorem c1_claim_counterexample :
    channels_information_list2xml
      [{ name := some "n", description := some "d", color := some [1],
         color_table := none, range := [0, 1], gamma := some 1, alpha := 1 }] =
      Except.ok (XNode.elem "imaris_channels_information" none
        [XNode.comment "generated by SimpleITK",
         XNode.elem "channel" none
           [XNode.elem "name" (some "n") [],
            XNode.elem "description" (some "d") [],
            XNode.elem "color" (some "255") [],
            XNode.elem "range" (some "0.0, 1.0") [],
            XNode.elem "alpha" (some "1.0") [],
            XNode.elem "gamma" (some "1.0") []]]) ∧
    channels_information_xml2list (etRoundTrip
      (XNode.elem "imaris_channels_information" none
        [XNode.comment "generated by SimpleITK",
         XNode.elem "channel" none
           [XNode.elem "name" (some "n") [],
            XNode.elem "description" (some "d") [],
            XNode.elem "color" (some "255") [],
            XNode.elem "range" (some "0.0, 1.0") [],
            XNode.elem "alpha" (some "1.0") [],
            XNode.elem "gamma" (some "1.0") []]])) =
      Except.ok [{ name := some "n", description := some "d", color := some [1],
                   color_table := none, range := [0, 1], gamma := none,
                   alpha := 1 }] ∧
    ({ name := some "n", description := some "d", color := some [1],
       color_table := none, range := [0, 1], gamma := some 1,
       alpha := 1 } : Record) ≠
      { name := some "n", description := some "d", color := some [1],
        color_table := none, range := [0, 1], gamma := none, alpha := 1 } := by
  refine ⟨?_, ?_, ?_⟩
  · with_unfolding_all rfl
  · with_unfolding_all rfl
  · with_unfolding_all decide

/-- Claim C2 is the spec's intent; the code drops gamma (code_bug): a channel
element whose gamma child is present with the non-empty text `2.0` parses to a
record with no gamma key, because line 66's `if channel_xml_info.find('gamma'):`
tests Python Element truthiness, which is false for a childless element. -/
theorem c2_gamma_present_not_stored :
    findChild "gamma" (XNode.elem "channel" none
      [XNode.elem "name" (some "n") [], XNode.elem "description" (some "d") [],
       XNode.elem "color" (some "255") [], XNode.elem "range" (some "0, 1") [],
       XNode.elem "gamma" (some "2.0") [],
       XNode.elem "alpha" (some "1.0") []]) =
      some (XNode.elem "gamma" (some "2.0") []) ∧
    channels_information_xml2list (XNode.elem "imaris_channels_information" none
      [XNode.elem "channel" none
        [XNode.elem "name" (some "n") [], XNode.elem "description" (some "d") [],
         XNode.elem "color" (some "255") [], XNode.elem "range" (some "0, 1") [],
         XNode.elem "gamma" (some "2.0") [],
         XNode.elem "alpha" (some "1.0") []]]) =
      Except.ok [{ name := some "n", description := some "d", color := some [1],
                   color_table := none, range := [0, 1], gamma := none,
                   alpha := 1 }] := by
  refine ⟨?_, ?_⟩
  · with_unfolding_all rfl
  · with_unfolding_all rfl

/-- Claim C3 is the spec's intent; the code raises nothing (code_bug):
serializing a record carrying both `color` and `color_table` succeeds, emits a
`color` element only and silently discards `color_table` — there is no
`InvalidRecordError` anywhere in the source. -/
theorem c3_both_colors_serialize_without_error :
    channels_information_list2xml
      [{ name := some "n", description := some "d", color := some [1],
         color_table := some [0], range := [0, 1], gamma := none,
         alpha := 1 }] =
      Except.ok (XNode.elem "imaris_channels_information" none
        [XNode.comment "generated by SimpleITK",
         XNode.elem "channel" none
           [XNode.elem "name" (some "n") [],
            XNode.elem "description" (some "d") [],
            XNode.elem "color" (some "255") [],
            XNode.elem "range" (some "0.0, 1.0") [],
            XNode.elem "alpha" (some "1.0") []]]) := by
  with_unfolding_all rfl

/-- Claim C4 is the spec's intent; the code faults generically (code_bug): a
channel element lacking its `description` child makes the deserializer fail
with the AttributeError of reading `.text` on a `None` lookup — an error that
names neither the field nor the channel index — not with a structured
`MissingFieldError` (no such error exists in the source). -/
theorem c4_missing_description_generic_fault :
    channels_information_xml2list (XNode.elem "imaris_channels_information" none
      [XNode.elem "channel" none
        [XNode.elem "name" (some "n") [],
         XNode.elem "range" (some "0, 1") [],
         XNode.elem "alpha" (some "1.0") []]]) =
      Except.error (DesErr.attributeError "text") := by
  with_unfolding_all rfl

/-- Claim C5 is the spec's intent; the code raises a bare ValueError
(code_bug): malformed numeric text in a `range` field makes `float()` raise a
ValueError carrying only the offending token — not a structured
`MalformedValueError` with the field name (no such error exists in the
source). -/
theorem c5_malformed_value_error_payload :
    channels_information_xml2list (XNode.elem "imaris_channels_information" none
      [XNode.elem "channel" none
        [XNode.elem "name" (some "n") [],
         XNode.elem "description" (some "d") [],
         XNode.elem "range" (some "0, abc") [],
         XNode.elem "alpha" (some "1.0") []]]) =
      Except.error (DesErr.valueError "abc") := by
  with_unfolding_all rfl

end SitkIbex
